import Mathlib

/-!
The AT command exchange engine of komutlar.go

A shallow embedding of `src/komutlar.go`.  Go strings are byte strings; a byte
is modelled as a `Char` and a string as a list of them.  The serial port is
modelled as a scripted channel with a simulated clock: every call of
`port.Read` and `port.Write` takes its outcome and its duration from a script
and advances the clock.  Echo output on the terminal (`fmt.Print`, `log.Printf`)
is not modelled.
-/

namespace Komutlar

/-- A Go string, read as its sequence of bytes. -/
abbrev Text := List Char

/-- Go `time.Duration`: a number of nanoseconds. -/
abbrev Duration := Nat

/-- Go `time.Millisecond`. -/
def Millisecond : Duration := 1000000

/-- Go `time.Second`. -/
def Second : Duration := 1000000000

/-- Line terminator appended to every command: Go `"\r\n"`. -/
def CRLF : Text := ['\r', '\n']

/-- Go `strings.HasPrefix s sub`. -/
def hasPrefix : Text → Text → Bool
  | _, [] => true
  | [], _ :: _ => false
  | c :: s, d :: sub => c == d && hasPrefix s sub

/-- Go `strings.Contains s sub`: `sub` occurs in `s` as a contiguous run of bytes. -/
def contains : Text → Text → Bool
  | [], sub => hasPrefix [] sub
  | c :: s, sub => hasPrefix (c :: s) sub || contains s sub

/-- Outcome of one `port.Read(buf)`: an error (`err != nil`, in which case the
code looks at nothing else), or the `n` bytes placed in `buf` (`n` may be 0). -/
inductive ReadResult where
  | err : ReadResult
  | data (chunk : Text) : ReadResult
  deriving DecidableEq, Repr

/-- The serial port together with the simulated world around it.

* `now`: the clock, in nanoseconds;
* `readTimeout`: the value last given to `SetReadTimeout`; a `Read` on a line
  that stays silent returns 0 bytes after this long;
* `reads`: the scripted future `Read` calls, each with the time it takes;
  once the script is used up the line is silent;
* `writes`: the scripted future `Write` calls, each with the time it takes and
  whether it succeeds; once used up every write succeeds at once;
* `written`: the byte strings handed to `Write` so far, oldest first;
* `readCalls`: the number of `Read` calls made so far;
* `matcherCalls`: the number of calls of `readResponseWithTimeout` so far. -/
structure Port where
  now : Nat
  readTimeout : Duration
  reads : List (Duration × ReadResult)
  writes : List (Duration × Bool)
  written : List Text
  readCalls : Nat
  matcherCalls : Nat
  deriving DecidableEq, Repr

namespace Port

/-- Go `port.Read(buf)`. -/
def read (p : Port) : ReadResult × Port :=
  match p.reads with
  | [] => (ReadResult.data [], { p with now := p.now + p.readTimeout, readCalls := p.readCalls + 1 })
  | (d, r) :: rest => (r, { p with now := p.now + d, reads := rest, readCalls := p.readCalls + 1 })

/-- Go `port.Write(bytes)`; the boolean is `err == nil`. -/
def write (p : Port) (bytes : Text) : Bool × Port :=
  match p.writes with
  | [] => (true, { p with written := p.written ++ [bytes] })
  | (d, ok) :: rest => (ok, { p with now := p.now + d, writes := rest, written := p.written ++ [bytes] })

/-- Go `port.SetReadTimeout(d)`. -/
def setReadTimeout (p : Port) (d : Duration) : Port := { p with readTimeout := d }

/-- Go `time.Sleep(d)`. -/
def sleep (p : Port) (d : Duration) : Port := { p with now := p.now + d }

end Port

/-- The error check of `readResponseWithTimeout` (lines 251-253). -/
def hasErrorToken (response : Text) : Bool :=
  contains response "ERROR".toList ||
  contains response "+CME ERROR".toList ||
  contains response "+CMS ERROR".toList

/-- The `for` loop of `readResponseWithTimeout`.  `deadline` is the instant at
which `timeoutChan` fires; `response` and `matched` are the local variables.
Each iteration uses one unit of `fuel`; `none` means the fuel ran out. -/
def readLoop (deadline : Nat) (expected : Text) :
    Nat → Port → Text → Bool → Option ((Text × Bool) × Port)
  | 0, _, _, _ => none
  | fuel + 1, port, response, matched =>
    if deadline ≤ port.now then
      -- case <-timeoutChan
      some ((response, matched), port)
    else
      match port.read with
      | (ReadResult.err, port1) => readLoop deadline expected fuel port1 response matched
      | (ReadResult.data chunk, port1) =>
        if 0 < chunk.length then
          let response1 := response ++ chunk
          if contains response1 expected then
            some ((response1, true), port1)
          else if hasErrorToken response1 then
            some ((response1, false), port1)
          else
            readLoop deadline expected fuel (port1.sleep (100 * Millisecond)) response1 matched
        else
          readLoop deadline expected fuel (port1.sleep (100 * Millisecond)) response matched

/-- Fuel that always suffices for `readLoop`: every iteration either uses up a
scripted read or, on a silent line, sleeps and so moves the clock. -/
def readFuel (port : Port) (deadline : Nat) : Nat :=
  port.reads.length + (deadline - port.now) + 1

/-- The fuel `readFuel` is enough: `readLoop` returns. -/
theorem readLoop_isSome (deadline : Nat) (expected : Text) :
    ∀ (fuel : Nat) (port : Port) (response : Text) (matched : Bool),
      readFuel port deadline ≤ fuel →
      (readLoop deadline expected fuel port response matched).isSome = true := by
  intro fuel
  induction fuel with
  | zero =>
    intro port response matched h
    simp [readFuel] at h
  | succ n ih =>
    intro port response matched h
    unfold readLoop
    by_cases hd : deadline ≤ port.now
    · simp [hd]
    · simp only [hd, if_false]
      have hs : (0 : Nat) < 100 * Millisecond := by decide
      cases hr : port.reads with
      | nil =>
        simp only [Port.read, hr]
        apply ih
        simp only [readFuel, Port.sleep, hr, List.length_nil] at h ⊢
        omega
      | cons x rest =>
        obtain ⟨d, r⟩ := x
        simp only [Port.read, hr]
        cases r with
        | err =>
          apply ih
          simp only [readFuel, hr, List.length_cons] at h ⊢
          omega
        | data chunk =>
          have hrec : ∀ (resp : Text),
              (readLoop deadline expected n
                (Port.sleep { port with now := port.now + d, reads := rest,
                                        readCalls := port.readCalls + 1 } (100 * Millisecond))
                resp matched).isSome = true := by
            intro resp
            apply ih
            simp only [readFuel, Port.sleep, hr, List.length_cons] at h ⊢
            omega
          simp only []
          split
          · split
            · rfl
            · split
              · rfl
              · exact hrec _
          · exact hrec _

/-- Go `readResponseWithTimeout(port, timeout, expected)`: the returned pair
`(response.String(), matched)`, and the port afterwards. -/
def readResponseWithTimeout (port : Port) (timeout : Duration) (expected : Text) :
    (Text × Bool) × Port :=
  let port0 : Port := { port with matcherCalls := port.matcherCalls + 1 }
  -- timeoutChan := time.After(timeout)
  let deadline := port0.now + timeout
  (readLoop deadline expected (readFuel port0 deadline) port0 [] false).get
    (readLoop_isSome deadline expected _ port0 [] false (Nat.le_refl _))

/-- An operand of `fmt.Sprintf`: this program passes an `int` and strings. -/
inductive Arg where
  | int (v : Int) : Arg
  | str (s : Text) : Arg
  deriving DecidableEq, Repr

/-- Decimal rendering of a Go `int`, as `%d` prints it. -/
def intText (v : Int) : Text :=
  match v with
  | Int.ofNat n => Nat.toDigits 10 n
  | Int.negSucc n => '-' :: Nat.toDigits 10 (n + 1)

/-- The Go type name of an operand, as `fmt` prints it in its error forms. -/
def Arg.typeName : Arg → Text
  | Arg.int _ => "int".toList
  | Arg.str _ => "string".toList

/-- The plain (`%v`) rendering of an operand. -/
def Arg.plain : Arg → Text
  | Arg.int v => intText v
  | Arg.str s => s

/-- Rendering of one operand under one verb: `%d` of an int, `%s` of a string,
and Go's bad-verb form `%!verb(type=value)` otherwise. -/
def formatVerb (verb : Char) (a : Arg) : Text :=
  match a with
  | Arg.int v =>
    if verb = 'd' then intText v
    else "%!".toList ++ [verb] ++ "(".toList ++ a.typeName ++ "=".toList ++ a.plain ++ ")".toList
  | Arg.str t =>
    if verb = 's' then t
    else "%!".toList ++ [verb] ++ "(".toList ++ a.typeName ++ "=".toList ++ a.plain ++ ")".toList

/-- The list `type=value, type=value` inside Go's `%!(EXTRA ...)`. -/
def extraItems : List Arg → Text
  | [] => []
  | [a] => a.typeName ++ "=".toList ++ a.plain
  | a :: b :: rest => a.typeName ++ "=".toList ++ a.plain ++ ", ".toList ++ extraItems (b :: rest)

/-- What `fmt.Sprintf` appends for operands no verb used up. -/
def extraText (args : List Arg) : Text :=
  match args with
  | [] => []
  | _ :: _ => "%!(EXTRA ".toList ++ extraItems args ++ ")".toList

/-- Go `fmt.Sprintf(format, a...)` for the part of `fmt` this program uses: the
verbs `%d` and `%s`, the escape `%%`, literal bytes, and Go's rendering of a
missing, surplus or ill-typed operand.  Flags, widths and the other verbs of
`fmt` are outside this model. -/
def sprintf : Text → List Arg → Text
  | [], args => extraText args
  | c :: rest, args =>
    if c = '%' then
      match rest, args with
      | [], _ => "%!(NOVERB)".toList ++ extraText args
      | v :: rest1, [] =>
        if v = '%' then '%' :: sprintf rest1 []
        else "%!".toList ++ [v] ++ "(MISSING)".toList ++ sprintf rest1 []
      | v :: rest1, a :: as =>
        if v = '%' then '%' :: sprintf rest1 (a :: as)
        else formatVerb v a ++ sprintf rest1 as
    else c :: sprintf rest args

/-- The global `cid`. -/
def cid : Int := 1

/-- The global `pdpType`. -/
def pdpType : Text := "IP".toList

/-- The global `apn`. -/
def apn : Text := "internet".toList

/-- Go `type ATCommand struct`. -/
structure ATCommand where
  Command : Text
  SuccessResponse : Text
  Timeout : Duration
  Flag : Nat
  deriving DecidableEq, Repr

/-- Flag constant `1 << iota`, first of the block. -/
def gsmERROR : Nat := 1
/-- Flag constant. -/
def gsmCPIN : Nat := 2
/-- Flag constant. -/
def gsmIMEI : Nat := 4
/-- Flag constant. -/
def gsmOK : Nat := 8
/-- Flag constant. -/
def gsmCREG : Nat := 16
/-- Flag constant. -/
def gsmTIME : Nat := 32
/-- Flag constant. -/
def gsmCONNECT_OK : Nat := 64
/-- Flag constant. -/
def gsmDEACT_OK : Nat := 128

/-- The registry `var ATCommands = []ATCommand{...}`. -/
def ATCommands : List ATCommand := [
  ⟨"".toList, "ERROR".toList, 2 * Second, gsmERROR⟩,
  ⟨"".toList, "+CME ERROR".toList, 2 * Second, gsmERROR⟩,
  ⟨"".toList, "+CMS ERROR".toList, 2 * Second, gsmERROR⟩,
  ⟨"AT+IPR=115200".toList, "OK".toList, 2 * Second, gsmOK⟩,
  ⟨"ATE0".toList, "OK".toList, 2 * Second, gsmOK⟩,
  ⟨"AT+CPIN?".toList, "+CPIN: READY".toList, 5 * Second, gsmCPIN⟩,
  ⟨"AT+CREG?".toList, "+CREG:".toList, 2 * Second, gsmCREG⟩,
  ⟨"AT+QGSN".toList, "+QGSN:".toList, 2 * Second, gsmIMEI⟩,
  ⟨"AT+CTZU=3".toList, "OK".toList, 2 * Second, gsmOK⟩,
  ⟨"AT+CCLK?".toList, "+CCLK:".toList, 2 * Second, gsmTIME⟩,
  ⟨"AT+CGATT?".toList, "+CGATT: 1".toList, 2 * Second, gsmOK⟩,
  ⟨"AT+CGDCONT".toList, "OK".toList, Second, gsmOK⟩,
  ⟨"AT+CGACT=1,1".toList, "OK".toList, 150 * Second, gsmOK⟩,
  ⟨"AT+QIOPEN".toList, "CONNECT OK".toList, 20 * Second, gsmCONNECT_OK⟩,
  ⟨"AT+QIDEACT".toList, "DEACT OK".toList, 2 * Second, gsmDEACT_OK⟩]

/-- How a call of `sendATCommand` ends: it returns, or `log.Fatalf` ends the process. -/
inductive Outcome where
  | returned : Outcome
  | aborted : Outcome
  deriving DecidableEq, Repr

/-- The command text `fullCommand` built at lines 196-199. -/
def fullCommand (cmd : ATCommand) (format : Text) (a : List Arg) : Text :=
  if format ≠ [] then
    sprintf "%s=%s".toList [Arg.str cmd.Command, Arg.str (sprintf format a)]
  else
    cmd.Command

/-- One pass through the body of the retry loop (lines 203-219): the write,
and after a successful write the exchange.  The boolean tells whether the
exchange matched; after a failed write (`continue`) it is `false`. -/
def attempt (cmd : ATCommand) (full : Text) (port : Port) : Bool × Port :=
  match port.write (full ++ CRLF) with
  | (false, port1) => (false, port1)
  | (true, port1) =>
    match readResponseWithTimeout port1 cmd.Timeout cmd.SuccessResponse with
    | ((_, matched), port2) => (matched, port2)

/-- The retry loop `for attempt := 1; attempt <= maxRetries; attempt++`, with
`left = maxRetries + 1 - attempt` passes still allowed, and the `log.Fatalf`
after it. -/
def retryLoop (cmd : ATCommand) (full : Text) : Nat → Port → Outcome × Port
  | 0, port => (Outcome.aborted, port)
  | left + 1, port =>
    match attempt cmd full port with
    | (true, port1) => (Outcome.returned, port1.sleep (1 * Second))
    | (false, port1) => retryLoop cmd full left port1

/-- The constant `maxRetries`. -/
def maxRetries : Nat := 3

/-- Go `sendATCommand(port, cmd, format, a...)`. -/
def sendATCommand (port : Port) (cmd : ATCommand) (format : Text) (a : List Arg) :
    Outcome × Port :=
  if cmd.Command = [] then
    (Outcome.returned, port)
  else
    retryLoop cmd (fullCommand cmd format a) maxRetries port

/-- Sequencing of two statements: the second runs only if the first returned. -/
def andThen (r : Outcome × Port) (next : Port → Outcome × Port) : Outcome × Port :=
  match r with
  | (Outcome.returned, port) => next port
  | (Outcome.aborted, port) => (Outcome.aborted, port)

/-- Go `runTestMode(port)`. -/
def runTestMode (port : Port) : Outcome × Port :=
  andThen (sendATCommand port (ATCommands.get ⟨3, by decide⟩) [] []) fun port =>
  andThen (sendATCommand port (ATCommands.get ⟨4, by decide⟩) [] []) fun port =>
  andThen (sendATCommand port (ATCommands.get ⟨5, by decide⟩) [] []) fun port =>
  andThen (sendATCommand port (ATCommands.get ⟨6, by decide⟩) [] []) fun port =>
  andThen (sendATCommand port (ATCommands.get ⟨7, by decide⟩) [] []) fun port =>
  andThen (sendATCommand port (ATCommands.get ⟨8, by decide⟩) [] []) fun port =>
  andThen (sendATCommand port (ATCommands.get ⟨9, by decide⟩) [] []) fun port =>
  andThen (sendATCommand port (ATCommands.get ⟨10, by decide⟩) [] []) fun port =>
  andThen (sendATCommand port (ATCommands.get ⟨11, by decide⟩) "%d,\"%s\",\"%s\"".toList
    [Arg.int cid, Arg.str pdpType, Arg.str apn]) fun port =>
  andThen (sendATCommand port (ATCommands.get ⟨12, by decide⟩) [] []) fun port =>
  andThen (sendATCommand port (ATCommands.get ⟨13, by decide⟩) [] []) fun port =>
  sendATCommand port (ATCommands.get ⟨14, by decide⟩) [] []

/-- The state of the `for` loop of `readAllResponses`: the port and the locals
`response` and `lastReceived`. -/
structure IdleState where
  port : Port
  response : Text
  lastReceived : Nat
  deriving DecidableEq, Repr

/-- The loop test of `readAllResponses`: `time.Since(lastReceived) > idleTimeout`. -/
def idleExpired (idleTimeout : Duration) (s : IdleState) : Bool :=
  decide (s.port.now - s.lastReceived > idleTimeout)

/-- One pass through the body of the loop of `readAllResponses` after the test
(lines 174-187). -/
def idleBody (s : IdleState) : IdleState :=
  match (s.port.setReadTimeout (100 * Millisecond)).read with
  | (ReadResult.err, port1) => { s with port := port1 }
  | (ReadResult.data chunk, port1) =>
    if 0 < chunk.length then
      { port := port1, response := s.response ++ chunk, lastReceived := port1.now }
    else
      { s with port := port1 }

/-- The `for` loop of `readAllResponses`; `none` means the fuel ran out. -/
def idleLoop (idleTimeout : Duration) : Nat → IdleState → Option IdleState
  | 0, _ => none
  | fuel + 1, s =>
    if idleExpired idleTimeout s then some s
    else idleLoop idleTimeout fuel (idleBody s)

/-- Fuel that always suffices for `idleLoop`. -/
def idleFuel (idleTimeout : Duration) (s : IdleState) : Nat :=
  s.port.reads.length * (idleTimeout + 2) + (s.lastReceived + idleTimeout + 1 - s.port.now) + 1

/-- The fuel `idleFuel` is enough: `idleLoop` returns. -/
theorem idleLoop_isSome (idleTimeout : Duration) :
    ∀ (fuel : Nat) (s : IdleState),
      idleFuel idleTimeout s ≤ fuel → (idleLoop idleTimeout fuel s).isSome = true := by
  intro fuel
  induction fuel with
  | zero =>
    intro s h
    simp [idleFuel] at h
  | succ n ih =>
    intro s h
    unfold idleLoop
    by_cases he : idleExpired idleTimeout s = true
    · simp [he]
    · simp only [he]
      apply ih
      have hs : (0 : Nat) < 100 * Millisecond := by decide
      have hne : ¬ (s.port.now - s.lastReceived > idleTimeout) := by
        simpa [idleExpired] using he
      cases hr : s.port.reads with
      | nil =>
        simp only [idleFuel, idleBody, Port.read, Port.setReadTimeout, hr, List.length_nil] at h ⊢
        simp only [List.length_nil, Nat.lt_irrefl, if_false]
        omega
      | cons x rest =>
        obtain ⟨d, r⟩ := x
        have hmul : (rest.length + 1) * (idleTimeout + 2)
            = rest.length * (idleTimeout + 2) + (idleTimeout + 2) := Nat.succ_mul _ _
        cases r with
        | err =>
          simp only [idleFuel, idleBody, Port.read, Port.setReadTimeout, hr, List.length_cons] at h ⊢
          omega
        | data chunk =>
          simp only [idleFuel, idleBody, Port.read, Port.setReadTimeout, hr, List.length_cons] at h ⊢
          split
          · simp only []
            omega
          · simp only []
            omega

/-- Go `readAllResponses(port, idleTimeout)`.  The Go function returns nothing;
the embedding hands back the loop state at the `break`: the port, and the final
values of the locals `response` and `lastReceived`. -/
def readAllResponses (port : Port) (idleTimeout : Duration) : IdleState :=
  -- lastReceived := time.Now()
  let s0 : IdleState := { port := port, response := [], lastReceived := port.now }
  (idleLoop idleTimeout (idleFuel idleTimeout s0) s0).get
    (idleLoop_isSome idleTimeout _ s0 (Nat.le_refl _))

/-- The bytes one read hands to the program: none after an error. -/
def chunkOf : ReadResult → Text
  | ReadResult.err => []
  | ReadResult.data chunk => chunk

/-- The bytes delivered by the first `n` reads of a script, in arrival order. -/
def received : List (Duration × ReadResult) → Nat → Text
  | _, 0 => []
  | [], _ + 1 => []
  | (_, r) :: rest, n + 1 => chunkOf r ++ received rest n

/-- The bytes delivered by read number `j` (counted from 0) of a script. -/
def chunkAt : List (Duration × ReadResult) → Nat → Text
  | [], _ => []
  | (_, r) :: _, 0 => chunkOf r
  | _ :: rest, j + 1 => chunkAt rest j

/-- The accumulated text holds the success token or a fixed error token. -/
def hasToken (expected : Text) (response : Text) : Bool :=
  contains response expected || hasErrorToken response

/-- Number of `Read` calls one invocation of `readResponseWithTimeout` makes. -/
def readsDone (port : Port) (timeout : Duration) (expected : Text) : Nat :=
  (readResponseWithTimeout port timeout expected).2.readCalls - port.readCalls

/-- Position of the first occurrence of `sub` in `s`, as Go `strings.Index` gives it. -/
def firstIndex : Text → Text → Option Nat
  | [], sub => if hasPrefix [] sub then some 0 else none
  | c :: s, sub =>
    if hasPrefix (c :: s) sub then some 0 else (firstIndex s sub).map (fun i => i + 1)

/-- A fresh port at time 0 on which every read returns at once, delivering
the given chunks one per read, and every write succeeds. -/
def portWith (chunks : List Text) : Port :=
  { now := 0, readTimeout := 0, reads := chunks.map (fun c => (0, ReadResult.data c)),
    writes := [], written := [], readCalls := 0, matcherCalls := 0 }

/-- The port as it stands before pass number `i + 1` of the retry loop, when
none of the passes before it ended the loop. -/
def portBefore (cmd : ATCommand) (full : Text) : Nat → Port → Port
  | 0, port => port
  | i + 1, port => portBefore cmd full i (attempt cmd full port).2

/-- Whether pass number `i + 1` of the retry loop, reached from `port`, matches. -/
def matchedAt (cmd : ATCommand) (full : Text) (i : Nat) (port : Port) : Bool :=
  (attempt cmd full (portBefore cmd full i port)).1

/-- The next `j` scripted writes all fail. -/
def writesFail : List (Duration × Bool) → Nat → Bool
  | _, 0 => true
  | [], _ + 1 => false
  | (_, ok) :: rest, j + 1 => !ok && writesFail rest j

/-- A port like `portWith chunks` on which the next writes fail or succeed as listed. -/
def portWithWrites (oks : List Bool) (chunks : List Text) : Port :=
  { portWith chunks with writes := oks.map (fun ok => (0, ok)) }

/-- A port at time 0 with the given read script, on which every write succeeds. -/
def portScript (reads : List (Duration × ReadResult)) : Port :=
  { now := 0, readTimeout := 0, reads := reads, writes := [], written := [],
    readCalls := 0, matcherCalls := 0 }

/-- A channel that delivers `+CPIN: RE`, falls silent past one 5 s deadline,
delivers `ADY\r\n`, falls silent past the next, and then delivers `+CPIN: READY`. -/
def splitTokenPort : Port :=
  portScript [(0, ReadResult.data "+CPIN: RE".toList), (5 * Second, ReadResult.data []),
    (0, ReadResult.data "ADY\r\n".toList), (5 * Second, ReadResult.data []),
    (0, ReadResult.data "+CPIN: READY".toList)]

/-- One call `sendATCommand(port, cmd, format, a...)`, without its port. -/
structure Call where
  cmd : ATCommand
  format : Text
  args : List Arg

/-- The twelve calls in the body of `runTestMode` (lines 118-129), in order. -/
def testCalls : List Call := [
  ⟨ATCommands.get ⟨3, by decide⟩, [], []⟩,
  ⟨ATCommands.get ⟨4, by decide⟩, [], []⟩,
  ⟨ATCommands.get ⟨5, by decide⟩, [], []⟩,
  ⟨ATCommands.get ⟨6, by decide⟩, [], []⟩,
  ⟨ATCommands.get ⟨7, by decide⟩, [], []⟩,
  ⟨ATCommands.get ⟨8, by decide⟩, [], []⟩,
  ⟨ATCommands.get ⟨9, by decide⟩, [], []⟩,
  ⟨ATCommands.get ⟨10, by decide⟩, [], []⟩,
  ⟨ATCommands.get ⟨11, by decide⟩, "%d,\"%s\",\"%s\"".toList,
    [Arg.int cid, Arg.str pdpType, Arg.str apn]⟩,
  ⟨ATCommands.get ⟨12, by decide⟩, [], []⟩,
  ⟨ATCommands.get ⟨13, by decide⟩, [], []⟩,
  ⟨ATCommands.get ⟨14, by decide⟩, [], []⟩]

/-- A list of calls made one after the other, each only if the one before returned. -/
def runCalls : List Call → Port → Outcome × Port
  | [], port => (Outcome.returned, port)
  | c :: cs, port => andThen (sendATCommand port c.cmd c.format c.args) (runCalls cs)

/-- In the run of the calls from `port`, the first pass of every call matches:
its write succeeds and its exchange finds the success token. -/
def everyFirstAttemptMatches : List Call → Port → Bool
  | [], _ => true
  | c :: cs, port =>
    (attempt c.cmd (fullCommand c.cmd c.format c.args) port).1 &&
      everyFirstAttemptMatches cs (sendATCommand port c.cmd c.format c.args).2

/-- A modem that answers every command of the test sequence as hoped, one
answer per read. -/
def friendlyModem : Port :=
  portWith ["\r\nOK\r\n".toList, "ATE0\r\r\nOK\r\n".toList, "\r\n+CPIN: READY\r\n".toList,
    "\r\n+CREG: 0,1\r\n".toList, "\r\n+QGSN: 86\r\n".toList, "\r\nOK\r\n".toList,
    "\r\n+CCLK: \"26/11/01\"\r\n".toList, "\r\n+CGATT: 1\r\n".toList, "\r\nOK\r\n".toList,
    "\r\nOK\r\n".toList, "\r\nCONNECT OK\r\n".toList, "\r\nDEACT OK\r\n".toList]

/-- The loop state of `readAllResponses` after `n` passes through the body. -/
def idleAfter : Nat → IdleState → IdleState
  | 0, s => s
  | n + 1, s => idleAfter n (idleBody s)

/-- The simulated clock after `n` reads starting at `now`: a scripted read
takes its scripted time, a read on the silent line after the script takes the
100 ms read timeout. -/
def clockAt : Nat → List (Duration × ReadResult) → Nat → Nat
  | now, _, 0 => now
  | now, [], n + 1 => clockAt (now + 100 * Millisecond) [] n
  | now, (d, _) :: rest, n + 1 => clockAt (now + d) rest n

/-- The instant at which the last non-empty chunk among the first `n` reads
arrived, or `last` when none of them delivered bytes. -/
def lastArrival : Nat → Nat → List (Duration × ReadResult) → Nat → Nat
  | last, _, _, 0 => last
  | last, _, [], _ + 1 => last
  | last, now, (d, r) :: rest, n + 1 =>
    if chunkOf r = [] then lastArrival last (now + d) rest n
    else lastArrival (now + d) (now + d) rest n

/-- A stretch of `n` polls of 100 ms each that find the line silent. -/
def silence (n : Nat) : List (Duration × ReadResult) :=
  List.replicate n (100 * Millisecond, ReadResult.data [])

/-- A channel on which `A` arrives at t = 0 s, `B` at t = 2 s and `C` at
t = 4 s, and nothing after that. -/
def threeChunks : Port :=
  portScript ([(0, ReadResult.data ['A'])] ++ silence 19 ++
    [(100 * Millisecond, ReadResult.data ['B'])] ++ silence 19 ++
    [(100 * Millisecond, ReadResult.data ['C'])])

/-! Properties of the embedding. -/

theorem hasPrefix_iff (s sub : Text) : hasPrefix s sub = true ↔ sub <+: s := by
  induction s generalizing sub with
  | nil =>
    cases sub with
    | nil => simp [hasPrefix]
    | cons d sub => simp [hasPrefix]
  | cons c s ih =>
    cases sub with
    | nil => simp [hasPrefix]
    | cons d sub =>
      simp only [hasPrefix, Bool.and_eq_true, beq_iff_eq, ih, List.cons_prefix_cons]
      constructor
      · rintro ⟨h1, h2⟩
        exact ⟨h1.symm, h2⟩
      · rintro ⟨h1, h2⟩
        exact ⟨h1.symm, h2⟩

/-- The model of `strings.Contains` decides the contiguous-substring relation. -/
theorem contains_iff (s sub : Text) : contains s sub = true ↔ sub <:+: s := by
  induction s with
  | nil =>
    simp only [contains, hasPrefix_iff]
    constructor
    · intro h
      exact h.isInfix
    · intro h
      have := List.eq_nil_of_infix_nil h
      subst this
      exact List.prefix_refl _
  | cons c s ih =>
    simp only [contains, Bool.or_eq_true, hasPrefix_iff, ih]
    rw [List.infix_cons_iff]

theorem contains_append_left (a b sub : Text) (h : contains a sub = true) :
    contains (a ++ b) sub = true := by
  rw [contains_iff] at h ⊢
  exact h.trans (List.infix_append' [] a b |>.trans (by simp))

theorem received_nil (n : Nat) : received [] n = [] := by
  cases n <;> rfl

theorem chunkOf_data_nil {chunk : Text} (h : ¬ 0 < chunk.length) :
    chunkOf (ReadResult.data chunk) = [] := by
  cases chunk with
  | nil => rfl
  | cons c cs => simp at h

/-- What one run of the matcher's loop does, read off its result: it made `k`
reads and used up as many script entries, touched nothing else of the port,
returns the text received over those reads, stopped at the first non-empty read
that left a token in the accumulator, and otherwise ran to the deadline. -/
theorem readLoop_spec (deadline : Nat) (expected : Text) :
    ∀ (fuel : Nat) (port : Port) (response : Text) (matched : Bool)
      (text : Text) (m : Bool) (port' : Port),
      readLoop deadline expected fuel port response matched = some ((text, m), port') →
      ∃ k, port'.readCalls = port.readCalls + k
        ∧ port'.reads = port.reads.drop k
        ∧ text = response ++ received port.reads k
        ∧ port'.written = port.written
        ∧ port'.writes = port.writes
        ∧ port'.matcherCalls = port.matcherCalls
        ∧ port.now ≤ port'.now
        ∧ (∀ j, j < k → chunkAt port.reads j ≠ [] →
              hasToken expected (response ++ received port.reads (j + 1)) = true →
              j + 1 = k ∧ m = contains text expected)
        ∧ ((deadline ≤ port'.now ∧ m = matched) ∨
           (∃ j, j + 1 = k ∧ chunkAt port.reads j ≠ [] ∧ hasToken expected text = true)) := by
  intro fuel
  induction fuel with
  | zero =>
    intro port response matched text m port' h
    simp [readLoop] at h
  | succ n ih =>
    intro port response matched text m port' h
    unfold readLoop at h
    by_cases hd : deadline ≤ port.now
    · simp only [hd, if_true, Option.some.injEq, Prod.mk.injEq] at h
      obtain ⟨⟨rfl, rfl⟩, rfl⟩ := h
      refine ⟨0, by simp, by simp, by simp [received], rfl, rfl, rfl, Nat.le_refl _, ?_, Or.inl ⟨hd, rfl⟩⟩
      intro j hj
      omega
    · simp only [hd, if_false] at h
      cases hr : port.reads with
      | nil =>
        simp only [Port.read, hr, List.length_nil, Nat.lt_irrefl, if_false] at h
        obtain ⟨k, h1, h2, h3, h4, h5, h6, h7, h8, h9⟩ := ih _ _ _ _ _ _ h
        simp only [Port.sleep, hr] at h1 h2 h3 h4 h5 h6 h7 h8 h9
        refine ⟨k + 1, by omega, by simpa using h2, by simpa [received_nil] using h3,
          h4, h5, h6, by omega, ?_, ?_⟩
        · intro j _ hc
          simp [chunkAt] at hc
        · rcases h9 with h9 | ⟨j, _, hc, _⟩
          · exact Or.inl h9
          · simp [chunkAt] at hc
      | cons x rest =>
        obtain ⟨d, r⟩ := x
        simp only [Port.read, hr] at h
        -- a read that hands over no bytes, followed by the rest of the loop
        have skip : ∀ (p1 : Port),
            readLoop deadline expected n p1 response matched = some ((text, m), port') →
            p1.reads = rest → p1.readCalls = port.readCalls + 1 →
            p1.written = port.written → p1.writes = port.writes →
            p1.matcherCalls = port.matcherCalls → port.now ≤ p1.now → chunkOf r = [] →
            ∃ k, port'.readCalls = port.readCalls + k
              ∧ port'.reads = ((d, r) :: rest).drop k
              ∧ text = response ++ received ((d, r) :: rest) k
              ∧ port'.written = port.written
              ∧ port'.writes = port.writes
              ∧ port'.matcherCalls = port.matcherCalls
              ∧ port.now ≤ port'.now
              ∧ (∀ j, j < k → chunkAt ((d, r) :: rest) j ≠ [] →
                    hasToken expected (response ++ received ((d, r) :: rest) (j + 1)) = true →
                    j + 1 = k ∧ m = contains text expected)
              ∧ ((deadline ≤ port'.now ∧ m = matched) ∨
                 (∃ j, j + 1 = k ∧ chunkAt ((d, r) :: rest) j ≠ [] ∧
                    hasToken expected text = true)) := by
          intro p1 h e1 e2 e3 e4 e5 e6 hc
          obtain ⟨k, h1, h2, h3, h4, h5, h6, h7, h8, h9⟩ := ih _ _ _ _ _ _ h
          rw [e1] at h2 h3 h8 h9
          refine ⟨k + 1, by omega, by simpa using h2, by simpa [received, hc] using h3,
            by rw [h4, e3], by rw [h5, e4], by rw [h6, e5], by omega, ?_, ?_⟩
          · intro j hj hne htok
            cases j with
            | zero => simp [chunkAt, hc] at hne
            | succ j =>
              simp only [chunkAt, received, hc, List.nil_append] at hne htok
              have := h8 j (by omega) hne htok
              exact ⟨by omega, this.2⟩
          · rcases h9 with h9 | ⟨j, hj, hne, htok⟩
            · exact Or.inl h9
            · exact Or.inr ⟨j + 1, by omega, by simpa [chunkAt] using hne, htok⟩
        cases r with
        | err =>
          simp only [] at h
          exact skip _ h rfl rfl rfl rfl rfl (Nat.le_add_right _ _) rfl
        | data chunk =>
          simp only [] at h
          by_cases hlen : 0 < chunk.length
          · simp only [hlen, if_true] at h
            have hcne : chunk ≠ [] := by
              intro hc
              simp [hc] at hlen
            by_cases hexp : contains (response ++ chunk) expected = true
            · simp only [hexp, if_true, Option.some.injEq, Prod.mk.injEq] at h
              obtain ⟨⟨rfl, rfl⟩, rfl⟩ := h
              refine ⟨1, rfl, by simp, by simp [received, chunkOf], rfl, rfl, rfl,
                Nat.le_add_right _ _, ?_, ?_⟩
              · intro j hj _ _
                exact ⟨by omega, hexp.symm⟩
              · exact Or.inr ⟨0, rfl, by simpa [chunkAt, chunkOf] using hcne,
                  by simp [hasToken, hexp]⟩
            · simp only [hexp, Bool.false_eq_true, if_false] at h
              by_cases herr : hasErrorToken (response ++ chunk) = true
              · simp only [herr, if_true, Option.some.injEq, Prod.mk.injEq] at h
                obtain ⟨⟨rfl, rfl⟩, rfl⟩ := h
                refine ⟨1, rfl, by simp, by simp [received, chunkOf], rfl, rfl, rfl,
                  Nat.le_add_right _ _, ?_, ?_⟩
                · intro j hj _ _
                  exact ⟨by omega, by simpa using hexp⟩
                · exact Or.inr ⟨0, rfl, by simpa [chunkAt, chunkOf] using hcne,
                    by simp [hasToken, herr]⟩
              · simp only [herr, Bool.false_eq_true, if_false] at h
                obtain ⟨k, h1, h2, h3, h4, h5, h6, h7, h8, h9⟩ := ih _ _ _ _ _ _ h
                simp only [Port.sleep] at h1 h2 h3 h4 h5 h6 h7 h8 h9
                refine ⟨k + 1, by omega, by simpa using h2,
                  by simpa [received, chunkOf, List.append_assoc] using h3,
                  h4, h5, h6, by omega, ?_, ?_⟩
                · intro j hj hne htok
                  cases j with
                  | zero =>
                    simp [received, chunkOf, hasToken, hexp, herr] at htok
                  | succ j =>
                    simp only [chunkAt, received, chunkOf, ← List.append_assoc] at hne htok
                    have := h8 j (by omega) hne htok
                    exact ⟨by omega, this.2⟩
                · rcases h9 with h9 | ⟨j, hj, hne, htok⟩
                  · exact Or.inl h9
                  · exact Or.inr ⟨j + 1, by omega, by simpa [chunkAt] using hne, htok⟩
          · simp only [hlen, if_false] at h
            exact skip _ h rfl rfl rfl rfl rfl
              (by simp only [Port.sleep]; omega) (chunkOf_data_nil hlen)

/-- While the accumulator has not matched, the flag the loop returns tells
whether the returned text holds the success token. -/
theorem readLoop_matched (deadline : Nat) (expected : Text) :
    ∀ (fuel : Nat) (port : Port) (response : Text) (text : Text) (m : Bool) (port' : Port),
      contains response expected = false →
      readLoop deadline expected fuel port response false = some ((text, m), port') →
      m = contains text expected := by
  intro fuel
  induction fuel with
  | zero =>
    intro port response text m port' _ h
    simp [readLoop] at h
  | succ n ih =>
    intro port response text m port' hinv h
    unfold readLoop at h
    by_cases hd : deadline ≤ port.now
    · simp only [hd, if_true, Option.some.injEq, Prod.mk.injEq] at h
      obtain ⟨⟨rfl, rfl⟩, rfl⟩ := h
      exact hinv.symm
    · simp only [hd, if_false] at h
      cases hr : port.reads with
      | nil =>
        simp only [Port.read, hr, List.length_nil, Nat.lt_irrefl, if_false] at h
        exact ih _ _ _ _ _ hinv h
      | cons x rest =>
        obtain ⟨d, r⟩ := x
        simp only [Port.read, hr] at h
        cases r with
        | err =>
          simp only [] at h
          exact ih _ _ _ _ _ hinv h
        | data chunk =>
          simp only [] at h
          by_cases hlen : 0 < chunk.length
          · simp only [hlen, if_true] at h
            by_cases hexp : contains (response ++ chunk) expected = true
            · simp only [hexp, if_true, Option.some.injEq, Prod.mk.injEq] at h
              obtain ⟨⟨rfl, rfl⟩, rfl⟩ := h
              exact hexp.symm
            · simp only [hexp, Bool.false_eq_true, if_false] at h
              have hexp' : contains (response ++ chunk) expected = false := by simpa using hexp
              by_cases herr : hasErrorToken (response ++ chunk) = true
              · simp only [herr, if_true, Option.some.injEq, Prod.mk.injEq] at h
                obtain ⟨⟨rfl, rfl⟩, rfl⟩ := h
                exact hexp'.symm
              · simp only [herr, Bool.false_eq_true, if_false] at h
                exact ih _ _ _ _ _ hexp' h
          · simp only [hlen, if_false] at h
            exact ih _ _ _ _ _ hinv h

/-- The matcher is its loop, started with an empty accumulator. -/
theorem readResponse_loop (port : Port) (timeout : Duration) (expected : Text) :
    readLoop (port.now + timeout) expected
      (readFuel { port with matcherCalls := port.matcherCalls + 1 } (port.now + timeout))
      { port with matcherCalls := port.matcherCalls + 1 } [] false
      = some (readResponseWithTimeout port timeout expected) := by
  simp [readResponseWithTimeout]

/-- The characterisation of the loop, carried over to the matcher. -/
theorem readResponse_spec (port : Port) (timeout : Duration) (expected : Text) :
    ∃ k, (readResponseWithTimeout port timeout expected).2.readCalls = port.readCalls + k
      ∧ (readResponseWithTimeout port timeout expected).2.reads = port.reads.drop k
      ∧ (readResponseWithTimeout port timeout expected).1.1 = received port.reads k
      ∧ (readResponseWithTimeout port timeout expected).2.written = port.written
      ∧ (readResponseWithTimeout port timeout expected).2.writes = port.writes
      ∧ (readResponseWithTimeout port timeout expected).2.matcherCalls = port.matcherCalls + 1
      ∧ port.now ≤ (readResponseWithTimeout port timeout expected).2.now
      ∧ (∀ j, j < k → chunkAt port.reads j ≠ [] →
            hasToken expected (received port.reads (j + 1)) = true →
            j + 1 = k ∧ (readResponseWithTimeout port timeout expected).1.2
              = contains (readResponseWithTimeout port timeout expected).1.1 expected)
      ∧ ((port.now + timeout ≤ (readResponseWithTimeout port timeout expected).2.now
            ∧ (readResponseWithTimeout port timeout expected).1.2 = false) ∨
         (∃ j, j + 1 = k ∧ chunkAt port.reads j ≠ [] ∧
            hasToken expected (readResponseWithTimeout port timeout expected).1.1 = true)) := by
  have h := readResponse_loop port timeout expected
  obtain ⟨k, h1, h2, h3, h4, h5, h6, h7, h8, h9⟩ :=
    readLoop_spec _ _ _ _ _ _ (readResponseWithTimeout port timeout expected).1.1
      (readResponseWithTimeout port timeout expected).1.2
      (readResponseWithTimeout port timeout expected).2 h
  exact ⟨k, h1, h2, by simpa using h3, h4, h5, h6, h7, by simpa using h8, h9⟩

theorem readsDone_eq (port : Port) (timeout : Duration) (expected : Text) (k : Nat)
    (h : (readResponseWithTimeout port timeout expected).2.readCalls = port.readCalls + k) :
    readsDone port timeout expected = k := by
  unfold readsDone
  omega

theorem contains_nil_left (expected : Text) (h : expected ≠ []) :
    contains [] expected = false := by
  cases expected with
  | nil => exact absurd rfl h
  | cons c cs => rfl

theorem received_succ (reads : List (Duration × ReadResult)) :
    ∀ n, received reads (n + 1) = received reads n ++ chunkAt reads n := by
  induction reads with
  | nil =>
    intro n
    simp [received_nil, chunkAt]
  | cons x rest ih =>
    obtain ⟨d, r⟩ := x
    intro n
    cases n with
    | zero => simp [received, chunkAt]
    | succ n =>
      simp only [received, chunkAt] at ih ⊢
      rw [ih n, List.append_assoc]

theorem received_mono (reads : List (Duration × ReadResult)) (n m : Nat) (h : n ≤ m) :
    ∃ t, received reads m = received reads n ++ t := by
  induction m with
  | zero =>
    have : n = 0 := by omega
    subst this
    exact ⟨[], by simp⟩
  | succ m ih =>
    by_cases hn : n = m + 1
    · subst hn
      exact ⟨[], by simp⟩
    · obtain ⟨t, ht⟩ := ih (by omega)
      exact ⟨t ++ chunkAt reads m, by rw [received_succ, ht, List.append_assoc]⟩

theorem hasErrorToken_nil : hasErrorToken [] = false := by decide

/-- Among the reads whose accumulated text holds an error token there is a
first one, and it delivered bytes. -/
theorem first_error_read (reads : List (Duration × ReadResult)) :
    ∀ j, hasErrorToken (received reads (j + 1)) = true →
      ∃ i, i ≤ j ∧ chunkAt reads i ≠ [] ∧ hasErrorToken (received reads (i + 1)) = true := by
  intro j
  induction j with
  | zero =>
    intro h
    refine ⟨0, Nat.le_refl _, ?_, h⟩
    intro hc
    rw [received_succ, hc] at h
    simp [received, hasErrorToken_nil] at h
  | succ j ih =>
    intro h
    by_cases hc : chunkAt reads (j + 1) = []
    · rw [received_succ, hc, List.append_nil] at h
      obtain ⟨i, hi, h1, h2⟩ := ih h
      exact ⟨i, by omega, h1, h2⟩
    · exact ⟨j + 1, Nat.le_refl _, hc, h⟩

/-- C1. For a non-empty success token, `readResponseWithTimeout` returns
`matched = true` exactly when the text it returns contains the token as a
contiguous, case-sensitive substring, whatever the channel does and on whichever
exit the call ends. -/
theorem readResponseWithTimeout_matched_iff (port : Port) (timeout : Duration)
    (expected : Text) (hne : expected ≠ []) :
    (readResponseWithTimeout port timeout expected).1.2 = true ↔
      expected <:+: (readResponseWithTimeout port timeout expected).1.1 := by
  have h := readResponse_loop port timeout expected
  have hm := readLoop_matched _ _ _ _ _ (readResponseWithTimeout port timeout expected).1.1
    (readResponseWithTimeout port timeout expected).1.2
    (readResponseWithTimeout port timeout expected).2 (contains_nil_left expected hne) h
  rw [hm, contains_iff]

/-- C1, witness. With token `+CPIN: READY`: output ending in `+CPIN: READY\r\n`
is matched and holds the token (success exit); output `+cpin: ready` is not
matched and does not hold it (deadline exit); output `+CME ERROR: 10` is not
matched and does not hold it (error exit); output holding both `ERROR` and the
token is matched. -/
theorem readResponseWithTimeout_matched_iff_witness :
    (readResponseWithTimeout (portWith ["\r\n+CPIN: READY\r\n".toList]) (5 * Second)
        "+CPIN: READY".toList).1 = ("\r\n+CPIN: READY\r\n".toList, true)
    ∧ "+CPIN: READY".toList <:+: "\r\n+CPIN: READY\r\n".toList
    ∧ (readResponseWithTimeout (portWith ["+cpin: ready".toList]) (5 * Second)
        "+CPIN: READY".toList) = (("+cpin: ready".toList, false),
          { portWith [] with now := 5 * Second, readCalls := 50, matcherCalls := 1 })
    ∧ ¬ "+CPIN: READY".toList <:+: "+cpin: ready".toList
    ∧ (readResponseWithTimeout (portWith ["\r\n+CME ERROR: 10\r\n".toList]) (5 * Second)
        "+CPIN: READY".toList) = (("\r\n+CME ERROR: 10\r\n".toList, false),
          { portWith [] with readCalls := 1, matcherCalls := 1 })
    ∧ (readResponseWithTimeout (portWith ["ERROR\r\n+CPIN: READY\r\n".toList]) (5 * Second)
        "+CPIN: READY".toList).1 = ("ERROR\r\n+CPIN: READY\r\n".toList, true) := by
  have e1 : (readResponseWithTimeout (portWith ["\r\n+CPIN: READY\r\n".toList]) (5 * Second)
      "+CPIN: READY".toList).1 = ("\r\n+CPIN: READY\r\n".toList, true) := by decide
  have e2 : (readResponseWithTimeout (portWith ["+cpin: ready".toList]) (5 * Second)
      "+CPIN: READY".toList) = (("+cpin: ready".toList, false),
        { portWith [] with now := 5 * Second, readCalls := 50, matcherCalls := 1 }) := by decide
  have t1 := readResponseWithTimeout_matched_iff (portWith ["\r\n+CPIN: READY\r\n".toList])
    (5 * Second) "+CPIN: READY".toList (by decide)
  have t2 := readResponseWithTimeout_matched_iff (portWith ["+cpin: ready".toList])
    (5 * Second) "+CPIN: READY".toList (by decide)
  rw [e1] at t1
  rw [e2] at t2
  exact ⟨e1, t1.mp rfl, e2, fun h => Bool.noConfusion (t2.mpr h), by decide, by decide⟩

/-- C2. If a read made by `readResponseWithTimeout` delivers bytes and leaves
the accumulator holding the success token or a fixed error token, that read is
the last one: no earlier non-empty read left a token, no further script entry is
used, the returned text is what the reads up to and including it delivered, in
order, and `matched` tells whether that text holds the success token (so it is
`false` when only an error token is there, whatever later chunks hold). -/
theorem readResponseWithTimeout_stops_at_first_token (port : Port) (timeout : Duration)
    (expected : Text) (j : Nat)
    (hj : j < readsDone port timeout expected)
    (hne : chunkAt port.reads j ≠ [])
    (htok : hasToken expected (received port.reads (j + 1)) = true) :
    readsDone port timeout expected = j + 1
    ∧ (readResponseWithTimeout port timeout expected).2.reads = port.reads.drop (j + 1)
    ∧ (readResponseWithTimeout port timeout expected).1.1 = received port.reads (j + 1)
    ∧ (readResponseWithTimeout port timeout expected).1.2
        = contains (received port.reads (j + 1)) expected
    ∧ (∀ i, i < j → chunkAt port.reads i ≠ [] →
        hasToken expected (received port.reads (i + 1)) = false) := by
  obtain ⟨k, h1, h2, h3, _, _, _, _, h8, _⟩ := readResponse_spec port timeout expected
  have hk := readsDone_eq port timeout expected k h1
  rw [hk] at hj ⊢
  obtain ⟨e, hm⟩ := h8 j hj hne htok
  subst e
  refine ⟨rfl, h2, h3, by rw [hm, h3], ?_⟩
  intro i hi hci
  by_contra hcon
  have := (h8 i (by omega) hci (by simpa using hcon)).1
  omega

/-- C2, witness. Chunks `AB`, `ERROR`, `OK` with token `OK`: the matcher stops
at the second read with text `ABERROR` and `matched = false`, and the chunk `OK`
stays unread. -/
theorem readResponseWithTimeout_stops_at_first_token_witness :
    readsDone (portWith ["AB".toList, "ERROR".toList, "OK".toList]) (2 * Second) "OK".toList = 2
    ∧ (readResponseWithTimeout (portWith ["AB".toList, "ERROR".toList, "OK".toList]) (2 * Second)
        "OK".toList).2.reads = [(0, ReadResult.data "OK".toList)]
    ∧ (readResponseWithTimeout (portWith ["AB".toList, "ERROR".toList, "OK".toList]) (2 * Second)
        "OK".toList).1 = ("ABERROR".toList, false) := by
  have t := readResponseWithTimeout_stops_at_first_token
    (portWith ["AB".toList, "ERROR".toList, "OK".toList]) (2 * Second) "OK".toList 1
    (by decide) (by decide) (by decide)
  refine ⟨t.1, ?_, ?_⟩
  · rw [t.2.1]
    decide
  · apply Prod.ext
    · rw [t.2.2.1]
      decide
    · rw [t.2.2.2.1]
      decide

/-- C3, counterexample. Token `OK`, output `ERROR\r\nOK\r\n` delivered by one
read at time 0: `ERROR` stands at position 0, before the first `OK` at
position 7, and yet the matcher returns `matched = true`. -/
theorem readResponseWithTimeout_error_before_success_counterexample :
    firstIndex "ERROR\r\nOK\r\n".toList "ERROR".toList = some 0
    ∧ firstIndex "ERROR\r\nOK\r\n".toList "OK".toList = some 7
    ∧ readsDone (portWith ["ERROR\r\nOK\r\n".toList]) (2 * Second) "OK".toList = 1
    ∧ (readResponseWithTimeout (portWith ["ERROR\r\nOK\r\n".toList]) (2 * Second)
        "OK".toList).2.now = 0
    ∧ (readResponseWithTimeout (portWith ["ERROR\r\nOK\r\n".toList]) (2 * Second)
        "OK".toList).1 = ("ERROR\r\nOK\r\n".toList, true) := by
  decide

/-- C3, as amended. If after some read made by `readResponseWithTimeout` the
text received so far holds a fixed error token and not the success token, the
call returns `matched = false`. -/
theorem readResponseWithTimeout_error_without_success (port : Port) (timeout : Duration)
    (expected : Text) (j : Nat)
    (hj : j < readsDone port timeout expected)
    (herr : hasErrorToken (received port.reads (j + 1)) = true)
    (hno : contains (received port.reads (j + 1)) expected = false) :
    (readResponseWithTimeout port timeout expected).1.2 = false := by
  obtain ⟨k, h1, _, h3, _, _, _, _, h8, _⟩ := readResponse_spec port timeout expected
  have hk := readsDone_eq port timeout expected k h1
  rw [hk] at hj
  obtain ⟨i, hi, hci, hei⟩ := first_error_read port.reads j herr
  obtain ⟨e, hm⟩ := h8 i (by omega) hci (by simp [hasToken, hei])
  subst e
  rw [hm, h3]
  obtain ⟨t, ht⟩ := received_mono port.reads (i + 1) (j + 1) (by omega)
  by_contra hcon
  have hc : contains (received port.reads (i + 1)) expected = true := by simpa using hcon
  have := contains_append_left _ t _ hc
  rw [← ht, hno] at this
  exact Bool.noConfusion this

/-- C3 as amended, witness. Token `OK`, chunks `ERROR\r\n` then `OK\r\n`: after
the first read the text holds `ERROR` and no `OK`, and the call returns
`matched = false`. -/
theorem readResponseWithTimeout_error_without_success_witness :
    (readResponseWithTimeout (portWith ["ERROR\r\n".toList, "OK\r\n".toList]) (2 * Second)
        "OK".toList).1.2 = false
    ∧ readsDone (portWith ["ERROR\r\n".toList, "OK\r\n".toList]) (2 * Second) "OK".toList = 1 :=
  ⟨readResponseWithTimeout_error_without_success
      (portWith ["ERROR\r\n".toList, "OK\r\n".toList]) (2 * Second) "OK".toList 0
      (by decide) (by decide) (by decide), by decide⟩

theorem attempt_eq (cmd : ATCommand) (full : Text) (port : Port) :
    attempt cmd full port =
      if (port.write (full ++ CRLF)).1 = true then
        ((readResponseWithTimeout (port.write (full ++ CRLF)).2 cmd.Timeout
            cmd.SuccessResponse).1.2,
         (readResponseWithTimeout (port.write (full ++ CRLF)).2 cmd.Timeout
            cmd.SuccessResponse).2)
      else (false, (port.write (full ++ CRLF)).2) := by
  unfold attempt
  cases h : port.write (full ++ CRLF) with
  | mk ok p1 =>
    cases ok <;> simp

theorem write_written (port : Port) (bytes : Text) :
    (port.write bytes).2.written = port.written ++ [bytes]
    ∧ (port.write bytes).2.readCalls = port.readCalls
    ∧ (port.write bytes).2.matcherCalls = port.matcherCalls
    ∧ (port.write bytes).2.reads = port.reads := by
  unfold Port.write
  cases port.writes with
  | nil => simp
  | cons x rest =>
    obtain ⟨d, ok⟩ := x
    simp

/-- Every pass of the retry loop hands the command line to `Write` exactly once. -/
theorem attempt_written (cmd : ATCommand) (full : Text) (port : Port) :
    (attempt cmd full port).2.written = port.written ++ [full ++ CRLF] := by
  rw [attempt_eq]
  obtain ⟨hw, _⟩ := write_written port (full ++ CRLF)
  split
  · obtain ⟨_, _, _, _, h4, _⟩ := readResponse_spec (port.write (full ++ CRLF)).2 cmd.Timeout
      cmd.SuccessResponse
    simp only []
    rw [h4, hw]
  · exact hw

/-- A pass invokes the matcher at most once, and exactly once when it matches. -/
theorem attempt_matcherCalls (cmd : ATCommand) (full : Text) (port : Port) :
    (attempt cmd full port).2.matcherCalls ≤ port.matcherCalls + 1
    ∧ ((attempt cmd full port).1 = true →
        (attempt cmd full port).2.matcherCalls = port.matcherCalls + 1) := by
  rw [attempt_eq]
  obtain ⟨_, _, hm, _⟩ := write_written port (full ++ CRLF)
  split
  · obtain ⟨_, _, _, _, _, _, h6, _⟩ := readResponse_spec (port.write (full ++ CRLF)).2
      cmd.Timeout cmd.SuccessResponse
    simp only []
    rw [h6, hm]
    exact ⟨Nat.le_refl _, fun _ => rfl⟩
  · simp only []
    rw [hm]
    exact ⟨Nat.le_succ _, fun h => Bool.noConfusion h⟩

/-- A pass whose write fails makes no read and does not invoke the matcher. -/
theorem attempt_write_failed (cmd : ATCommand) (full : Text) (port : Port)
    (d : Duration) (rest : List (Duration × Bool)) (h : port.writes = (d, false) :: rest) :
    (attempt cmd full port).1 = false
    ∧ (attempt cmd full port).2.readCalls = port.readCalls
    ∧ (attempt cmd full port).2.matcherCalls = port.matcherCalls
    ∧ (attempt cmd full port).2.writes = rest := by
  simp [attempt, Port.write, h]

theorem retryLoop_succ (cmd : ATCommand) (full : Text) (left : Nat) (port : Port) :
    retryLoop cmd full (left + 1) port =
      if (attempt cmd full port).1 = true then
        (Outcome.returned, (attempt cmd full port).2.sleep (1 * Second))
      else retryLoop cmd full left (attempt cmd full port).2 := by
  rw [retryLoop]
  cases h : attempt cmd full port with
  | mk b p1 =>
    cases b <;> simp

theorem portBefore_written (cmd : ATCommand) (full : Text) :
    ∀ (i : Nat) (port : Port),
      (portBefore cmd full i port).written = port.written ++ List.replicate i (full ++ CRLF) := by
  intro i
  induction i with
  | zero =>
    intro port
    simp [portBefore]
  | succ i ih =>
    intro port
    rw [portBefore, ih, attempt_written, List.replicate_succ]
    simp

/-- The retry loop ends at the first pass that matches. -/
theorem retryLoop_first_match (cmd : ATCommand) (full : Text) :
    ∀ (left : Nat) (port : Port) (k : Nat), k < left →
      (∀ i, i < k → matchedAt cmd full i port = false) →
      matchedAt cmd full k port = true →
      retryLoop cmd full left port
        = (Outcome.returned, (portBefore cmd full (k + 1) port).sleep (1 * Second)) := by
  intro left
  induction left with
  | zero =>
    intro port k hk
    omega
  | succ left ih =>
    intro port k hk hno hyes
    rw [retryLoop_succ]
    cases k with
    | zero =>
      have h0 : (attempt cmd full port).1 = true := hyes
      simp [h0, portBefore]
    | succ k =>
      have h0 : (attempt cmd full port).1 = false := hno 0 (Nat.succ_pos _)
      simp only [h0, Bool.false_eq_true, if_false]
      rw [ih (attempt cmd full port).2 k (by omega) (fun i hi => hno (i + 1) (by omega)) hyes]
      rfl

/-- The retry loop passes through all its passes when none matches, and then aborts. -/
theorem retryLoop_no_match (cmd : ATCommand) (full : Text) :
    ∀ (left : Nat) (port : Port),
      (∀ i, i < left → matchedAt cmd full i port = false) →
      retryLoop cmd full left port = (Outcome.aborted, portBefore cmd full left port) := by
  intro left
  induction left with
  | zero =>
    intro port _
    rfl
  | succ left ih =>
    intro port hno
    rw [retryLoop_succ]
    have h0 : (attempt cmd full port).1 = false := hno 0 (Nat.succ_pos _)
    simp only [h0, Bool.false_eq_true, if_false]
    rw [ih (attempt cmd full port).2 (fun i hi => hno (i + 1) (by omega))]
    rfl

/-- The retry loop writes the command line once per pass it makes, at least
once and at most `left` times; it invokes the matcher at least once when it
returns. -/
theorem retryLoop_written (cmd : ATCommand) (full : Text) :
    ∀ (left : Nat) (port : Port),
      ∃ n, n ≤ left ∧ (0 < left → 1 ≤ n)
        ∧ (retryLoop cmd full left port).2.written
            = port.written ++ List.replicate n (full ++ CRLF)
        ∧ ((retryLoop cmd full left port).1 = Outcome.returned →
            port.matcherCalls + 1 ≤ (retryLoop cmd full left port).2.matcherCalls)
        ∧ port.matcherCalls ≤ (retryLoop cmd full left port).2.matcherCalls := by
  intro left
  induction left with
  | zero =>
    intro port
    exact ⟨0, Nat.le_refl _, fun h => absurd h (Nat.lt_irrefl _), by simp [retryLoop],
      fun h => by simp [retryLoop] at h, by simp [retryLoop]⟩
  | succ left ih =>
    intro port
    rw [retryLoop_succ]
    obtain ⟨hle, hex⟩ := attempt_matcherCalls cmd full port
    by_cases h0 : (attempt cmd full port).1 = true
    · rw [if_pos h0]
      refine ⟨1, by omega, fun _ => Nat.le_refl _, ?_, ?_, ?_⟩
      · simp [Port.sleep, attempt_written]
      · intro _
        simp only [Port.sleep]
        rw [hex h0]
      · simp only [Port.sleep]
        rw [hex h0]
        exact Nat.le_succ _
    · rw [if_neg h0]
      obtain ⟨n, h1, _, h3, h4, h5⟩ := ih (attempt cmd full port).2
      have hmono : port.matcherCalls ≤ (attempt cmd full port).2.matcherCalls := by
        rw [attempt_eq]
        obtain ⟨_, _, hm, _⟩ := write_written port (full ++ CRLF)
        split
        · obtain ⟨_, _, _, _, _, _, h6, _⟩ := readResponse_spec (port.write (full ++ CRLF)).2
            cmd.Timeout cmd.SuccessResponse
          simp only []
          omega
        · simp only []
          omega
      refine ⟨n + 1, by omega, fun _ => by omega, ?_, ?_, by omega⟩
      · rw [h3, attempt_written, List.replicate_succ]
        simp
      · intro hr
        have := h4 hr
        omega

theorem writesFail_succ (ws : List (Duration × Bool)) (j : Nat)
    (h : writesFail ws (j + 1) = true) :
    ∃ d rest, ws = (d, false) :: rest ∧ writesFail rest j = true := by
  cases ws with
  | nil => simp [writesFail] at h
  | cons x rest =>
    obtain ⟨d, ok⟩ := x
    cases ok with
    | true => simp [writesFail] at h
    | false => exact ⟨d, rest, rfl, by simpa [writesFail] using h⟩

/-- When the next `left` writes all fail, the retry loop aborts after `left`
write calls, without a read and without invoking the matcher. -/
theorem retryLoop_all_writes_fail (cmd : ATCommand) (full : Text) :
    ∀ (left : Nat) (port : Port), writesFail port.writes left = true →
      (retryLoop cmd full left port).1 = Outcome.aborted
      ∧ (retryLoop cmd full left port).2.readCalls = port.readCalls
      ∧ (retryLoop cmd full left port).2.matcherCalls = port.matcherCalls
      ∧ (retryLoop cmd full left port).2.written
          = port.written ++ List.replicate left (full ++ CRLF) := by
  intro left
  induction left with
  | zero =>
    intro port _
    simp [retryLoop]
  | succ left ih =>
    intro port h
    obtain ⟨d, rest, hw, hrest⟩ := writesFail_succ _ _ h
    obtain ⟨a1, a2, a3, a4⟩ := attempt_write_failed cmd full port d rest hw
    rw [retryLoop_succ, if_neg (by simp [a1])]
    obtain ⟨b1, b2, b3, b4⟩ := ih (attempt cmd full port).2 (by rw [a4]; exact hrest)
    refine ⟨b1, by rw [b2, a2], by rw [b3, a3], ?_⟩
    rw [b4, attempt_written, List.replicate_succ]
    simp

/-- When the next `j` writes fail, the retry loop invokes the matcher at most
`left - j` times. -/
theorem retryLoop_matcher_bound (cmd : ATCommand) (full : Text) :
    ∀ (left : Nat) (port : Port) (j : Nat), j ≤ left → writesFail port.writes j = true →
      (retryLoop cmd full left port).2.matcherCalls ≤ port.matcherCalls + (left - j) := by
  intro left
  induction left with
  | zero =>
    intro port j _ _
    simp [retryLoop]
  | succ left ih =>
    intro port j hj h
    rw [retryLoop_succ]
    cases j with
    | zero =>
      obtain ⟨hle, _⟩ := attempt_matcherCalls cmd full port
      by_cases h0 : (attempt cmd full port).1 = true
      · rw [if_pos h0]
        simp only [Port.sleep]
        omega
      · rw [if_neg h0]
        have := ih (attempt cmd full port).2 0 (Nat.zero_le _) (by simp [writesFail])
        omega
    | succ j =>
      obtain ⟨d, rest, hw, hrest⟩ := writesFail_succ _ _ h
      obtain ⟨a1, _, a3, a4⟩ := attempt_write_failed cmd full port d rest hw
      rw [if_neg (by simp [a1])]
      have := ih (attempt cmd full port).2 j (by omega) (by rw [a4]; exact hrest)
      omega

theorem sendATCommand_nonempty (port : Port) (cmd : ATCommand) (format : Text) (a : List Arg)
    (hne : cmd.Command ≠ []) :
    sendATCommand port cmd format a
      = retryLoop cmd (fullCommand cmd format a) 3 port := by
  simp [sendATCommand, hne, maxRetries]

/-- C4. For a descriptor with a non-empty template: if pass `k + 1` of the
retry loop (`k < 3`) is the first that matches, `sendATCommand` returns after
exactly `k + 1` writes; if none of the three passes matches it aborts after
exactly 3 writes; in every case it makes at most 3 writes, each of them the full
command followed by CRLF. -/
theorem sendATCommand_attempts (port : Port) (cmd : ATCommand) (format : Text) (a : List Arg)
    (hne : cmd.Command ≠ []) :
    (∀ k, k < 3 →
      (∀ i, i < k → matchedAt cmd (fullCommand cmd format a) i port = false) →
      matchedAt cmd (fullCommand cmd format a) k port = true →
      (sendATCommand port cmd format a).1 = Outcome.returned
      ∧ (sendATCommand port cmd format a).2.written
          = port.written ++ List.replicate (k + 1) (fullCommand cmd format a ++ CRLF))
    ∧ ((∀ i, i < 3 → matchedAt cmd (fullCommand cmd format a) i port = false) →
      (sendATCommand port cmd format a).1 = Outcome.aborted
      ∧ (sendATCommand port cmd format a).2.written
          = port.written ++ List.replicate 3 (fullCommand cmd format a ++ CRLF))
    ∧ (∃ n, 1 ≤ n ∧ n ≤ 3 ∧ (sendATCommand port cmd format a).2.written
          = port.written ++ List.replicate n (fullCommand cmd format a ++ CRLF)) := by
  rw [sendATCommand_nonempty port cmd format a hne]
  refine ⟨?_, ?_, ?_⟩
  · intro k hk hno hyes
    rw [retryLoop_first_match cmd _ 3 port k hk hno hyes]
    exact ⟨rfl, by simp [Port.sleep, portBefore_written]⟩
  · intro hno
    rw [retryLoop_no_match cmd _ 3 port hno]
    exact ⟨rfl, portBefore_written _ _ _ _⟩
  · obtain ⟨n, h1, h2, h3, _⟩ := retryLoop_written cmd (fullCommand cmd format a) 3 port
    exact ⟨n, h2 (by decide), h1, h3⟩

/-- C4, witness. `ATE0` on a line that answers `ERROR` and then `OK`: the first
pass does not match, the second does, and the call returns after exactly two
writes of `ATE0\r\n`. -/
theorem sendATCommand_attempts_witness :
    (sendATCommand (portWith ["ERROR\r\n".toList, "OK\r\n".toList])
        (ATCommands.get ⟨4, by decide⟩) [] []).1 = Outcome.returned
    ∧ (sendATCommand (portWith ["ERROR\r\n".toList, "OK\r\n".toList])
        (ATCommands.get ⟨4, by decide⟩) [] []).2.written
        = ["ATE0\r\n".toList, "ATE0\r\n".toList] :=
  (sendATCommand_attempts (portWith ["ERROR\r\n".toList, "OK\r\n".toList])
    (ATCommands.get ⟨4, by decide⟩) [] [] (by decide)).1 1 (by decide) (by decide) (by decide)

/-- C5. For a descriptor with a non-empty template: a pass whose write fails
makes no read and does not invoke the matcher; when the next three writes all
fail, `sendATCommand` aborts after exactly 3 write calls, with no read and no
matcher call; and when the next `j` writes fail it runs at most `3 - j`
exchanges. -/
theorem sendATCommand_failed_writes (port : Port) (cmd : ATCommand) (format : Text)
    (a : List Arg) (hne : cmd.Command ≠ []) :
    (writesFail port.writes 1 = true →
      (attempt cmd (fullCommand cmd format a) port).1 = false
      ∧ (attempt cmd (fullCommand cmd format a) port).2.readCalls = port.readCalls
      ∧ (attempt cmd (fullCommand cmd format a) port).2.matcherCalls = port.matcherCalls
      ∧ (attempt cmd (fullCommand cmd format a) port).2.written
          = port.written ++ [fullCommand cmd format a ++ CRLF])
    ∧ (writesFail port.writes 3 = true →
      (sendATCommand port cmd format a).1 = Outcome.aborted
      ∧ (sendATCommand port cmd format a).2.written
          = port.written ++ List.replicate 3 (fullCommand cmd format a ++ CRLF)
      ∧ (sendATCommand port cmd format a).2.readCalls = port.readCalls
      ∧ (sendATCommand port cmd format a).2.matcherCalls = port.matcherCalls)
    ∧ (∀ j, j ≤ 3 → writesFail port.writes j = true →
      (sendATCommand port cmd format a).2.matcherCalls ≤ port.matcherCalls + (3 - j)) := by
  rw [sendATCommand_nonempty port cmd format a hne]
  refine ⟨?_, ?_, ?_⟩
  · intro h
    obtain ⟨d, rest, hw, _⟩ := writesFail_succ _ _ h
    obtain ⟨a1, a2, a3, _⟩ := attempt_write_failed cmd (fullCommand cmd format a) port d rest hw
    exact ⟨a1, a2, a3, attempt_written _ _ _⟩
  · intro h
    obtain ⟨b1, b2, b3, b4⟩ := retryLoop_all_writes_fail cmd (fullCommand cmd format a) 3 port h
    exact ⟨b1, b4, b2, b3⟩
  · intro j hj h
    exact retryLoop_matcher_bound cmd (fullCommand cmd format a) 3 port j hj h

/-- C5, witness. `ATE0` on a port whose next three writes fail, although `OK`
waits to be read: the call aborts after three writes, no read, no matcher call. -/
theorem sendATCommand_failed_writes_witness :
    (sendATCommand (portWithWrites [false, false, false] ["OK\r\n".toList])
        (ATCommands.get ⟨4, by decide⟩) [] []).1 = Outcome.aborted
    ∧ (sendATCommand (portWithWrites [false, false, false] ["OK\r\n".toList])
        (ATCommands.get ⟨4, by decide⟩) [] []).2.written
        = ["ATE0\r\n".toList, "ATE0\r\n".toList, "ATE0\r\n".toList]
    ∧ (sendATCommand (portWithWrites [false, false, false] ["OK\r\n".toList])
        (ATCommands.get ⟨4, by decide⟩) [] []).2.readCalls = 0
    ∧ (sendATCommand (portWithWrites [false, false, false] ["OK\r\n".toList])
        (ATCommands.get ⟨4, by decide⟩) [] []).2.matcherCalls = 0 :=
  (sendATCommand_failed_writes (portWithWrites [false, false, false] ["OK\r\n".toList])
    (ATCommands.get ⟨4, by decide⟩) [] [] (by decide)).2.1 (by decide)

/-- The Go call `fmt.Sprintf("%s=%s", x, y)` joins its two strings with `=`. -/
theorem sprintf_join (x y : Text) :
    sprintf "%s=%s".toList [Arg.str x, Arg.str y] = x ++ "=".toList ++ y := by
  have e : "%s=%s".toList = ['%', 's', '=', '%', 's'] := rfl
  have e2 : "=".toList = ['='] := rfl
  rw [e, e2]
  simp [sprintf, formatVerb, extraText]

/-- C6. The command `sendATCommand` writes: with an empty format string it is
the template itself; with a non-empty format string it is the template, `=`,
and the formatted parameters. For `AT+CGDCONT` with format `%d,"%s","%s"` and
parameters (1, "IP", "internet") it is `AT+CGDCONT=1,"IP","internet"`, and what
is handed to `Write` is that text followed by CRLF. -/
theorem fullCommand_format :
    (∀ cmd a, fullCommand cmd [] a = cmd.Command)
    ∧ (∀ cmd format a, format ≠ [] →
        fullCommand cmd format a = cmd.Command ++ "=".toList ++ sprintf format a)
    ∧ fullCommand (ATCommands.get ⟨11, by decide⟩) "%d,\"%s\",\"%s\"".toList
        [Arg.int 1, Arg.str "IP".toList, Arg.str "internet".toList]
        = "AT+CGDCONT=1,\"IP\",\"internet\"".toList
    ∧ (∀ port, ∃ n, 1 ≤ n ∧ n ≤ 3 ∧
        (sendATCommand port (ATCommands.get ⟨11, by decide⟩) "%d,\"%s\",\"%s\"".toList
          [Arg.int 1, Arg.str "IP".toList, Arg.str "internet".toList]).2.written
        = port.written ++ List.replicate n "AT+CGDCONT=1,\"IP\",\"internet\"\r\n".toList) := by
  refine ⟨?_, ?_, by decide, ?_⟩
  · intro cmd a
    simp [fullCommand]
  · intro cmd format a h
    simp only [fullCommand, h, ne_eq, not_false_eq_true, if_true]
    exact sprintf_join _ _
  · intro port
    rw [sendATCommand_nonempty port _ _ _ (by decide)]
    obtain ⟨n, h1, h2, h3, _⟩ := retryLoop_written (ATCommands.get ⟨11, by decide⟩)
      (fullCommand (ATCommands.get ⟨11, by decide⟩) "%d,\"%s\",\"%s\"".toList
        [Arg.int 1, Arg.str "IP".toList, Arg.str "internet".toList]) 3 port
    refine ⟨n, h2 (by decide), h1, ?_⟩
    rw [h3]
    have e : fullCommand (ATCommands.get ⟨11, by decide⟩) "%d,\"%s\",\"%s\"".toList
        [Arg.int 1, Arg.str "IP".toList, Arg.str "internet".toList] ++ CRLF
        = "AT+CGDCONT=1,\"IP\",\"internet\"\r\n".toList := by decide
    rw [e]

/-- C6, witness. On a line that answers `OK`, the context definition is written
once, as `AT+CGDCONT=1,"IP","internet"` and CRLF; `ATE0` with an empty format
is written as it stands. -/
theorem fullCommand_format_witness :
    (sendATCommand (portWith ["OK\r\n".toList]) (ATCommands.get ⟨11, by decide⟩)
        "%d,\"%s\",\"%s\"".toList [Arg.int cid, Arg.str pdpType, Arg.str apn]).2.written
      = ["AT+CGDCONT=1,\"IP\",\"internet\"\r\n".toList]
    ∧ fullCommand (ATCommands.get ⟨4, by decide⟩) [] [] = "ATE0".toList
    ∧ fullCommand (ATCommands.get ⟨4, by decide⟩) "%d".toList [Arg.int 7] = "ATE0=7".toList := by
  refine ⟨by decide, ?_, ?_⟩
  · rw [fullCommand_format.1]
    decide
  · rw [fullCommand_format.2.1 _ _ _ (by decide)]
    decide

/-- C8. For a descriptor whose template is empty, `sendATCommand` returns
normally and leaves the port exactly as it was: no write, no read. The entries
of the registry with an empty template are its first three, and their success
tokens are `ERROR`, `+CME ERROR` and `+CMS ERROR`. -/
theorem sendATCommand_empty_template :
    (∀ (port : Port) (cmd : ATCommand) (format : Text) (a : List Arg), cmd.Command = [] →
        sendATCommand port cmd format a = (Outcome.returned, port))
    ∧ (∀ (i : Fin ATCommands.length), (ATCommands.get i).Command = [] ↔ i.val < 3)
    ∧ (ATCommands.take 3).map (fun c => c.SuccessResponse)
        = ["ERROR".toList, "+CME ERROR".toList, "+CMS ERROR".toList] := by
  refine ⟨?_, by decide, by decide⟩
  intro port cmd format a h
  simp [sendATCommand, h]

/-- C8, witness. The first registry entry, with a format and parameters, on a
port with bytes waiting: nothing is written, nothing is read. -/
theorem sendATCommand_empty_template_witness :
    sendATCommand (portWith ["OK\r\n".toList]) (ATCommands.get ⟨0, by decide⟩)
        "%d".toList [Arg.int 1]
      = (Outcome.returned, portWith ["OK\r\n".toList]) :=
  sendATCommand_empty_template.1 _ _ _ _ (by decide)

/-- C10, counterexample. (a) The first registry entry (empty template) sent
twice in sequence: both calls return, nothing is written and the matcher is
never invoked. (b) `ATE0` sent twice on a port whose first write succeeds and
whose next three fail: the first call returns after a full exchange, the second
makes three writes, never invokes the matcher, and aborts. -/
theorem sendATCommand_twice_counterexample :
    (sendATCommand (portWith ["ERROR".toList]) (ATCommands.get ⟨0, by decide⟩) [] []).1
        = Outcome.returned
    ∧ (sendATCommand
        (sendATCommand (portWith ["ERROR".toList]) (ATCommands.get ⟨0, by decide⟩) [] []).2
        (ATCommands.get ⟨0, by decide⟩) [] [])
        = (Outcome.returned, portWith ["ERROR".toList])
    ∧ (portWith ["ERROR".toList]).written = []
    ∧ (portWith ["ERROR".toList]).matcherCalls = 0
    ∧ (sendATCommand (portWithWrites [true, false, false, false] ["OK".toList])
        (ATCommands.get ⟨4, by decide⟩) [] []).1 = Outcome.returned
    ∧ (sendATCommand (portWithWrites [true, false, false, false] ["OK".toList])
        (ATCommands.get ⟨4, by decide⟩) [] []).2.matcherCalls = 1
    ∧ (sendATCommand
        (sendATCommand (portWithWrites [true, false, false, false] ["OK".toList])
          (ATCommands.get ⟨4, by decide⟩) [] []).2
        (ATCommands.get ⟨4, by decide⟩) [] []).1 = Outcome.aborted
    ∧ (sendATCommand
        (sendATCommand (portWithWrites [true, false, false, false] ["OK".toList])
          (ATCommands.get ⟨4, by decide⟩) [] []).2
        (ATCommands.get ⟨4, by decide⟩) [] []).2.matcherCalls = 1
    ∧ (sendATCommand
        (sendATCommand (portWithWrites [true, false, false, false] ["OK".toList])
          (ATCommands.get ⟨4, by decide⟩) [] []).2
        (ATCommands.get ⟨4, by decide⟩) [] []).2.written
        = ["ATE0\r\n".toList, "ATE0\r\n".toList, "ATE0\r\n".toList, "ATE0\r\n".toList] := by
  decide

/-- For every token, the flag the matcher's loop returns holds exactly when the
returned text is non-empty and holds the token, as long as the accumulator it
started from was empty or unmatched. -/
theorem readLoop_matched_text (deadline : Nat) (expected : Text) :
    ∀ (fuel : Nat) (port : Port) (response : Text) (text : Text) (m : Bool) (port' : Port),
      (response = [] ∨ contains response expected = false) →
      readLoop deadline expected fuel port response false = some ((text, m), port') →
      m = (decide (text ≠ []) && contains text expected) := by
  intro fuel
  induction fuel with
  | zero =>
    intro port response text m port' _ h
    simp [readLoop] at h
  | succ n ih =>
    intro port response text m port' hinv h
    unfold readLoop at h
    by_cases hd : deadline ≤ port.now
    · simp only [hd, if_true, Option.some.injEq, Prod.mk.injEq] at h
      obtain ⟨⟨rfl, rfl⟩, rfl⟩ := h
      rcases hinv with h0 | h0
      · simp [h0]
      · simp [h0]
    · simp only [hd, if_false] at h
      cases hr : port.reads with
      | nil =>
        simp only [Port.read, hr, List.length_nil, Nat.lt_irrefl, if_false] at h
        exact ih _ _ _ _ _ hinv h
      | cons x rest =>
        obtain ⟨d, r⟩ := x
        simp only [Port.read, hr] at h
        cases r with
        | err =>
          simp only [] at h
          exact ih _ _ _ _ _ hinv h
        | data chunk =>
          simp only [] at h
          by_cases hlen : 0 < chunk.length
          · simp only [hlen, if_true] at h
            have hne : response ++ chunk ≠ [] := by
              intro hc
              have hc2 := (List.append_eq_nil.mp hc).2
              simp [hc2] at hlen
            by_cases hexp : contains (response ++ chunk) expected = true
            · simp only [hexp, if_true, Option.some.injEq, Prod.mk.injEq] at h
              obtain ⟨⟨rfl, rfl⟩, rfl⟩ := h
              simp [hne, hexp]
            · simp only [hexp, Bool.false_eq_true, if_false] at h
              have hexp' : contains (response ++ chunk) expected = false := by simpa using hexp
              by_cases herr : hasErrorToken (response ++ chunk) = true
              · simp only [herr, if_true, Option.some.injEq, Prod.mk.injEq] at h
                obtain ⟨⟨rfl, rfl⟩, rfl⟩ := h
                simp [hexp']
              · simp only [herr, Bool.false_eq_true, if_false] at h
                exact ih _ _ _ _ _ (Or.inr hexp') h
          · simp only [hlen, if_false] at h
            exact ih _ _ _ _ _ hinv h

/-- A pass whose write succeeds invokes the matcher exactly once. -/
theorem attempt_write_ok (cmd : ATCommand) (full : Text) (port : Port)
    (h : (port.write (full ++ CRLF)).1 = true) :
    (attempt cmd full port).2.matcherCalls = port.matcherCalls + 1 := by
  rw [attempt_eq, if_pos h]
  obtain ⟨_, _, hm, _⟩ := write_written port (full ++ CRLF)
  obtain ⟨_, _, _, _, _, _, h6, _⟩ := readResponse_spec (port.write (full ++ CRLF)).2
    cmd.Timeout cmd.SuccessResponse
  simp only []
  rw [h6, hm]

/-- Unless the next `left` writes all fail, the retry loop invokes the matcher
at least once. -/
theorem retryLoop_matcher_pos (cmd : ATCommand) (full : Text) :
    ∀ (left : Nat) (port : Port), writesFail port.writes left = false →
      port.matcherCalls + 1 ≤ (retryLoop cmd full left port).2.matcherCalls := by
  intro left
  induction left with
  | zero =>
    intro port h
    simp [writesFail] at h
  | succ left ih =>
    intro port h
    rw [retryLoop_succ]
    by_cases hw : (port.write (full ++ CRLF)).1 = true
    · have hm := attempt_write_ok cmd full port hw
      by_cases h0 : (attempt cmd full port).1 = true
      · rw [if_pos h0]
        simp only [Port.sleep]
        omega
      · rw [if_neg h0]
        obtain ⟨_, _, _, _, _, hmono⟩ := retryLoop_written cmd full left (attempt cmd full port).2
        omega
    · cases hws : port.writes with
      | nil => simp [Port.write, hws] at hw
      | cons x rest =>
        obtain ⟨d, ok⟩ := x
        cases ok with
        | true => simp [Port.write, hws] at hw
        | false =>
          obtain ⟨a1, _, a3, a4⟩ := attempt_write_failed cmd full port d rest hws
          rw [if_neg (by simp [a1])]
          have hrest : writesFail rest left = false := by
            simpa [writesFail, hws] using h
          have := ih (attempt cmd full port).2 (by rw [a4]; exact hrest)
          omega

/-- C10, as amended. The text `readResponseWithTimeout` returns is exactly
what the reads of that invocation delivered, starting from nothing; the reads
it made are gone from the channel; and for every token `matched` holds exactly
when that text is non-empty and contains the token. `sendATCommand` called
twice in sequence with the same descriptor, its template non-empty, writes the
command line at least once in each call and, in each call, invokes the matcher
at least once unless the next three writes all fail; a call whose three writes
all fail aborts without invoking the matcher. A descriptor with an empty
template is skipped: the call returns and leaves the port as it was. -/
theorem exchanges_share_nothing :
    (∀ (port : Port) (timeout : Duration) (expected : Text),
      (readResponseWithTimeout port timeout expected).1.1
          = received port.reads (readsDone port timeout expected)
      ∧ (readResponseWithTimeout port timeout expected).2.reads
          = port.reads.drop (readsDone port timeout expected)
      ∧ (readResponseWithTimeout port timeout expected).1.2
          = (decide (received port.reads (readsDone port timeout expected) ≠ [])
              && contains (received port.reads (readsDone port timeout expected)) expected))
    ∧ (∀ (port : Port) (cmd : ATCommand) (format : Text) (a : List Arg), cmd.Command ≠ [] →
      ∃ n1 n2, 1 ≤ n1 ∧ 1 ≤ n2
        ∧ (sendATCommand port cmd format a).2.written
            = port.written ++ List.replicate n1 (fullCommand cmd format a ++ CRLF)
        ∧ (sendATCommand (sendATCommand port cmd format a).2 cmd format a).2.written
            = (sendATCommand port cmd format a).2.written
                ++ List.replicate n2 (fullCommand cmd format a ++ CRLF)
        ∧ (writesFail port.writes 3 = false →
            port.matcherCalls + 1 ≤ (sendATCommand port cmd format a).2.matcherCalls)
        ∧ (writesFail (sendATCommand port cmd format a).2.writes 3 = false →
            (sendATCommand port cmd format a).2.matcherCalls + 1
              ≤ (sendATCommand (sendATCommand port cmd format a).2 cmd format a).2.matcherCalls)
        ∧ (writesFail port.writes 3 = true →
            (sendATCommand port cmd format a).1 = Outcome.aborted
            ∧ (sendATCommand port cmd format a).2.matcherCalls = port.matcherCalls)
        ∧ (writesFail (sendATCommand port cmd format a).2.writes 3 = true →
            (sendATCommand (sendATCommand port cmd format a).2 cmd format a).1
              = Outcome.aborted
            ∧ (sendATCommand (sendATCommand port cmd format a).2 cmd format a).2.matcherCalls
              = (sendATCommand port cmd format a).2.matcherCalls)
        ∧ ((sendATCommand port cmd format a).1 = Outcome.returned →
            port.matcherCalls + 1 ≤ (sendATCommand port cmd format a).2.matcherCalls)
        ∧ ((sendATCommand (sendATCommand port cmd format a).2 cmd format a).1
              = Outcome.returned →
            (sendATCommand port cmd format a).2.matcherCalls + 1
              ≤ (sendATCommand (sendATCommand port cmd format a).2 cmd format a).2.matcherCalls))
    ∧ (∀ (port : Port) (cmd : ATCommand) (format : Text) (a : List Arg), cmd.Command = [] →
        sendATCommand port cmd format a = (Outcome.returned, port)) := by
  refine ⟨?_, ?_, ?_⟩
  · intro port timeout expected
    obtain ⟨k, h1, h2, h3, _⟩ := readResponse_spec port timeout expected
    rw [readsDone_eq port timeout expected k h1]
    refine ⟨h3, h2, ?_⟩
    have h := readResponse_loop port timeout expected
    have hm := readLoop_matched_text _ _ _ _ _ (readResponseWithTimeout port timeout expected).1.1
      (readResponseWithTimeout port timeout expected).1.2
      (readResponseWithTimeout port timeout expected).2 (Or.inl rfl) h
    rw [hm, h3]
  · intro port cmd format a hne
    rw [sendATCommand_nonempty port cmd format a hne, sendATCommand_nonempty _ cmd format a hne]
    obtain ⟨n1, _, a2, a3, a4, _⟩ := retryLoop_written cmd (fullCommand cmd format a) 3 port
    obtain ⟨n2, _, b2, b3, b4, _⟩ := retryLoop_written cmd (fullCommand cmd format a) 3
      (retryLoop cmd (fullCommand cmd format a) 3 port).2
    refine ⟨n1, n2, a2 (by decide), b2 (by decide), a3, b3,
      retryLoop_matcher_pos cmd _ 3 port,
      retryLoop_matcher_pos cmd _ 3 _, ?_, ?_, a4, b4⟩
    · intro h
      obtain ⟨c1, _, c3, _⟩ := retryLoop_all_writes_fail cmd (fullCommand cmd format a) 3 port h
      exact ⟨c1, c3⟩
    · intro h
      obtain ⟨c1, _, c3, _⟩ := retryLoop_all_writes_fail cmd (fullCommand cmd format a) 3
        (retryLoop cmd (fullCommand cmd format a) 3 port).2 h
      exact ⟨c1, c3⟩
  · intro port cmd format a h
    simp [sendATCommand, h]

/-- C10, witness. The token `+CPIN: READY` split across the end of the first
exchange and the start of the second matches in neither, although the two texts
joined hold it; sent through `sendATCommand`, the command matches only on its
third pass. `ATE0` sent twice on a line answering `OK` both times is written
twice and the matcher runs twice. `ATE0` on a silent line whose writes succeed
aborts after three writes and three matcher invocations. With the empty token
the matcher matches on the first bytes it reads and not on a silent line. -/
theorem exchanges_share_nothing_witness :
    (readResponseWithTimeout splitTokenPort (5 * Second) "+CPIN: READY".toList).1
        = ("+CPIN: RE".toList, false)
    ∧ (readResponseWithTimeout
        (readResponseWithTimeout splitTokenPort (5 * Second) "+CPIN: READY".toList).2
        (5 * Second) "+CPIN: READY".toList).1 = ("ADY\r\n".toList, false)
    ∧ contains ("+CPIN: RE".toList ++ "ADY\r\n".toList) "+CPIN: READY".toList = true
    ∧ (sendATCommand splitTokenPort (ATCommands.get ⟨5, by decide⟩) [] []).1 = Outcome.returned
    ∧ (sendATCommand splitTokenPort (ATCommands.get ⟨5, by decide⟩) [] []).2.written
        = ["AT+CPIN?\r\n".toList, "AT+CPIN?\r\n".toList, "AT+CPIN?\r\n".toList]
    ∧ (sendATCommand
        (sendATCommand (portWith ["OK\r\n".toList, "OK\r\n".toList])
          (ATCommands.get ⟨4, by decide⟩) [] []).2
        (ATCommands.get ⟨4, by decide⟩) [] []).2.written = ["ATE0\r\n".toList, "ATE0\r\n".toList]
    ∧ (sendATCommand
        (sendATCommand (portWith ["OK\r\n".toList, "OK\r\n".toList])
          (ATCommands.get ⟨4, by decide⟩) [] []).2
        (ATCommands.get ⟨4, by decide⟩) [] []).2.matcherCalls = 2
    ∧ (sendATCommand (portWith []) (ATCommands.get ⟨4, by decide⟩) [] []).1 = Outcome.aborted
    ∧ (sendATCommand (portWith []) (ATCommands.get ⟨4, by decide⟩) [] []).2.matcherCalls = 3
    ∧ (sendATCommand (portWith []) (ATCommands.get ⟨4, by decide⟩) [] []).2.written
        = ["ATE0\r\n".toList, "ATE0\r\n".toList, "ATE0\r\n".toList]
    ∧ (readResponseWithTimeout (portWith ["x".toList]) (2 * Second) []).1 = ("x".toList, true)
    ∧ (readResponseWithTimeout (portWith []) (2 * Second) []).1 = ([], false)
    ∧ (readResponseWithTimeout splitTokenPort (5 * Second) "+CPIN: READY".toList).1.2
        = (decide (received splitTokenPort.reads
              (readsDone splitTokenPort (5 * Second) "+CPIN: READY".toList) ≠ [])
            && contains (received splitTokenPort.reads
              (readsDone splitTokenPort (5 * Second) "+CPIN: READY".toList))
              "+CPIN: READY".toList)
    ∧ (0 + 1 ≤ (sendATCommand (portWith []) (ATCommands.get ⟨4, by decide⟩) [] []).2.matcherCalls) := by
  obtain ⟨n1, n2, _, _, _, _, hpos, _⟩ :=
    exchanges_share_nothing.2.1 (portWith []) (ATCommands.get ⟨4, by decide⟩) [] [] (by decide)
  exact ⟨by decide, by decide, by decide, by decide, by decide, by decide, by decide,
    by decide, by decide, by decide, by decide, by decide,
    (exchanges_share_nothing.1 splitTokenPort (5 * Second) "+CPIN: READY".toList).2.2,
    hpos (by decide)⟩

theorem andThen_returned (r : Outcome × Port) :
    andThen r (fun port => (Outcome.returned, port)) = r := by
  obtain ⟨o, p⟩ := r
  cases o <;> rfl

theorem runCalls_nil : runCalls [] = fun port => (Outcome.returned, port) := by
  funext port
  rfl

/-- The body of `runTestMode` is the run of `testCalls`. -/
theorem runTestMode_eq_runCalls (port : Port) : runTestMode port = runCalls testCalls port := by
  simp only [testCalls, runCalls, runCalls_nil, andThen_returned]
  rfl

/-- When the first pass of every call matches, the calls write one line each,
in order, and the run returns. -/
theorem runCalls_first_attempts :
    ∀ (cs : List Call) (port : Port), (∀ c ∈ cs, c.cmd.Command ≠ []) →
      everyFirstAttemptMatches cs port = true →
      (runCalls cs port).1 = Outcome.returned
      ∧ (runCalls cs port).2.written
          = port.written ++ cs.map (fun c => fullCommand c.cmd c.format c.args ++ CRLF) := by
  intro cs
  induction cs with
  | nil =>
    intro port _ _
    simp [runCalls]
  | cons c cs ih =>
    intro port hne h
    simp only [everyFirstAttemptMatches, Bool.and_eq_true] at h
    obtain ⟨h0, hrest⟩ := h
    have hc : c.cmd.Command ≠ [] := hne c (List.mem_cons_self _ _)
    have hsend : sendATCommand port c.cmd c.format c.args
        = (Outcome.returned,
            (attempt c.cmd (fullCommand c.cmd c.format c.args) port).2.sleep (1 * Second)) := by
      rw [sendATCommand_nonempty port c.cmd c.format c.args hc, retryLoop_succ, if_pos h0]
    rw [hsend] at hrest
    obtain ⟨i1, i2⟩ := ih _ (fun c' hc' => hne c' (List.mem_cons_of_mem _ hc')) hrest
    simp only [runCalls, hsend, andThen]
    refine ⟨i1, ?_⟩
    rw [i2]
    simp [Port.sleep, attempt_written]

/-- C7. In a run of `runTestMode` in which the first pass of every call
matches, the run returns and the writes it adds are exactly the twelve commands
below, each followed by CRLF, in this order, whatever the responses held. The
descriptors it sends are the registry without its first three entries, the
error-token entries, for which nothing is written. -/
theorem runTestMode_writes (port : Port)
    (h : everyFirstAttemptMatches testCalls port = true) :
    (runTestMode port).1 = Outcome.returned
    ∧ testCalls.map (fun c => c.cmd) = ATCommands.drop 3
    ∧ (runTestMode port).2.written = port.written ++
        ["AT+IPR=115200\r\n".toList, "ATE0\r\n".toList, "AT+CPIN?\r\n".toList,
         "AT+CREG?\r\n".toList, "AT+QGSN\r\n".toList, "AT+CTZU=3\r\n".toList,
         "AT+CCLK?\r\n".toList, "AT+CGATT?\r\n".toList,
         "AT+CGDCONT=1,\"IP\",\"internet\"\r\n".toList, "AT+CGACT=1,1\r\n".toList,
         "AT+QIOPEN\r\n".toList, "AT+QIDEACT\r\n".toList] := by
  rw [runTestMode_eq_runCalls]
  obtain ⟨h1, h2⟩ := runCalls_first_attempts testCalls port (by decide) h
  refine ⟨h1, by decide, ?_⟩
  rw [h2]
  have e : testCalls.map (fun c => fullCommand c.cmd c.format c.args ++ CRLF) =
      ["AT+IPR=115200\r\n".toList, "ATE0\r\n".toList, "AT+CPIN?\r\n".toList,
       "AT+CREG?\r\n".toList, "AT+QGSN\r\n".toList, "AT+CTZU=3\r\n".toList,
       "AT+CCLK?\r\n".toList, "AT+CGATT?\r\n".toList,
       "AT+CGDCONT=1,\"IP\",\"internet\"\r\n".toList, "AT+CGACT=1,1\r\n".toList,
       "AT+QIOPEN\r\n".toList, "AT+QIDEACT\r\n".toList] := by decide
  rw [e]

/-- C7, witness. Against `friendlyModem` every first pass matches, and the
twelve commands go out in order. -/
theorem runTestMode_writes_witness :
    everyFirstAttemptMatches testCalls friendlyModem = true
    ∧ (runTestMode friendlyModem).1 = Outcome.returned
    ∧ (runTestMode friendlyModem).2.written =
        ["AT+IPR=115200\r\n".toList, "ATE0\r\n".toList, "AT+CPIN?\r\n".toList,
         "AT+CREG?\r\n".toList, "AT+QGSN\r\n".toList, "AT+CTZU=3\r\n".toList,
         "AT+CCLK?\r\n".toList, "AT+CGATT?\r\n".toList,
         "AT+CGDCONT=1,\"IP\",\"internet\"\r\n".toList, "AT+CGACT=1,1\r\n".toList,
         "AT+QIOPEN\r\n".toList, "AT+QIDEACT\r\n".toList]
    ∧ (runTestMode friendlyModem).2.readCalls = 12 :=
  ⟨by decide, (runTestMode_writes friendlyModem (by decide)).1,
    (runTestMode_writes friendlyModem (by decide)).2.2, by decide⟩

theorem lastArrival_zero (last now : Nat) (reads : List (Duration × ReadResult)) :
    lastArrival last now reads 0 = last := by
  cases reads <;> rfl

theorem lastArrival_nil (last now n : Nat) : lastArrival last now [] n = last := by
  cases n <;> rfl

theorem clockAt_zero (now : Nat) (reads : List (Duration × ReadResult)) :
    clockAt now reads 0 = now := by
  cases reads <;> rfl

/-- The state after `n` passes through the body, in terms of the script. -/
theorem idleAfter_spec :
    ∀ (n : Nat) (s : IdleState),
      (idleAfter n s).port.now = clockAt s.port.now s.port.reads n
      ∧ (idleAfter n s).lastReceived = lastArrival s.lastReceived s.port.now s.port.reads n
      ∧ (idleAfter n s).response = s.response ++ received s.port.reads n
      ∧ (idleAfter n s).port.readCalls = s.port.readCalls + n
      ∧ (idleAfter n s).port.reads = s.port.reads.drop n
      ∧ (idleAfter n s).port.written = s.port.written := by
  intro n
  induction n with
  | zero =>
    intro s
    simp [idleAfter, clockAt_zero, lastArrival_zero, received]
  | succ n ih =>
    intro s
    obtain ⟨h1, h2, h3, h4, h5, h6⟩ := ih (idleBody s)
    simp only [idleAfter]
    rw [h1, h2, h3, h4, h5, h6]
    cases hr : s.port.reads with
    | nil =>
      have hb : idleBody s = { s with port := { s.port with
          now := s.port.now + 100 * Millisecond, readTimeout := 100 * Millisecond,
          readCalls := s.port.readCalls + 1 } } := by
        simp [idleBody, Port.read, Port.setReadTimeout, hr]
      rw [hb]
      simp only [hr, clockAt, lastArrival_nil, received_nil, List.drop_nil, List.append_nil,
        true_and, and_true]
      omega
    | cons x rest =>
      obtain ⟨d, r⟩ := x
      by_cases hc : chunkOf r = []
      · have hb : idleBody s = { s with port := { s.port with
            now := s.port.now + d, readTimeout := 100 * Millisecond, reads := rest,
            readCalls := s.port.readCalls + 1 } } := by
          cases r with
          | err => simp [idleBody, Port.read, Port.setReadTimeout, hr]
          | data chunk =>
            have : chunk = [] := hc
            subst this
            simp [idleBody, Port.read, Port.setReadTimeout, hr]
        rw [hb]
        simp only [clockAt, lastArrival, received, hc, if_true, List.drop_succ_cons,
          List.nil_append, true_and, and_true]
        omega
      · have hb : idleBody s = IdleState.mk ({ s.port with
            now := s.port.now + d, readTimeout := 100 * Millisecond, reads := rest,
            readCalls := s.port.readCalls + 1 }) (s.response ++ chunkOf r) (s.port.now + d) := by
          cases r with
          | err => exact absurd rfl hc
          | data chunk =>
            have hpos : 0 < chunk.length := List.length_pos.mpr hc
            simp [idleBody, Port.read, Port.setReadTimeout, hr, hpos, chunkOf]
        rw [hb]
        simp only [clockAt, lastArrival, received, hc, if_false, List.drop_succ_cons,
          List.append_assoc, true_and, and_true]
        omega

/-- The loop of `readAllResponses` stops at the first loop test that finds the
idle time above the threshold. -/
theorem idleLoop_spec (idleTimeout : Duration) :
    ∀ (fuel : Nat) (s r : IdleState), idleLoop idleTimeout fuel s = some r →
      ∃ n, r = idleAfter n s ∧ idleExpired idleTimeout r = true
        ∧ ∀ m, m < n → idleExpired idleTimeout (idleAfter m s) = false := by
  intro fuel
  induction fuel with
  | zero =>
    intro s r h
    simp [idleLoop] at h
  | succ fuel ih =>
    intro s r h
    unfold idleLoop at h
    by_cases he : idleExpired idleTimeout s = true
    · rw [if_pos he] at h
      have e : s = r := by simpa using h
      subst e
      exact ⟨0, rfl, he, fun m hm => absurd hm (Nat.not_lt_zero _)⟩
    · rw [if_neg he] at h
      obtain ⟨n, h1, h2, h3⟩ := ih _ _ h
      refine ⟨n + 1, h1, h2, ?_⟩
      intro m hm
      cases m with
      | zero => simpa [idleAfter] using he
      | succ m => exact h3 m (by omega)

/-- C9. `readAllResponses` with idle threshold `T` makes `n` reads, where `n`
is the first loop test at which the time since the last non-empty chunk (since
the start when none arrived) exceeds `T`: at every earlier test it did not
exceed `T`. The text accumulated is what those reads delivered, in order, and
the idle clock stands at the arrival of the last non-empty chunk. With
`T` = 5 s and chunks at 0 s, 2 s and 4 s followed by silence, it stops at
9.1 s, the first 100 ms poll after 4 s + 5 s. -/
theorem readAllResponses_idle :
    (∀ (port : Port) (T : Duration), ∃ n,
      (readAllResponses port T).port.readCalls = port.readCalls + n
      ∧ (∀ m, m < n →
          clockAt port.now port.reads m - lastArrival port.now port.now port.reads m ≤ T)
      ∧ clockAt port.now port.reads n - lastArrival port.now port.now port.reads n > T
      ∧ (readAllResponses port T).port.now = clockAt port.now port.reads n
      ∧ (readAllResponses port T).lastReceived = lastArrival port.now port.now port.reads n
      ∧ (readAllResponses port T).response = received port.reads n
      ∧ (readAllResponses port T).port.reads = port.reads.drop n)
    ∧ (readAllResponses threeChunks (5 * Second)).port.now = 9 * Second + 100 * Millisecond
    ∧ (readAllResponses threeChunks (5 * Second)).lastReceived = 4 * Second
    ∧ (readAllResponses threeChunks (5 * Second)).response = ['A', 'B', 'C']
    ∧ (readAllResponses threeChunks (5 * Second)).port.readCalls = 92 := by
  refine ⟨?_, by decide, by decide, by decide, by decide⟩
  intro port T
  have h : idleLoop T
      (idleFuel T { port := port, response := [], lastReceived := port.now })
      { port := port, response := [], lastReceived := port.now }
      = some (readAllResponses port T) := by
    simp [readAllResponses]
  obtain ⟨n, h1, h2, h3⟩ := idleLoop_spec T _ _ _ h
  obtain ⟨a1, a2, a3, a4, a5, _⟩ :=
    idleAfter_spec n { port := port, response := [], lastReceived := port.now }
  simp only [List.nil_append] at a1 a2 a3 a4 a5
  refine ⟨n, by rw [h1, a4], ?_, ?_, by rw [h1, a1], by rw [h1, a2], by rw [h1, a3],
    by rw [h1, a5]⟩
  · intro m hm
    have := h3 m hm
    obtain ⟨b1, b2, _⟩ :=
      idleAfter_spec m { port := port, response := [], lastReceived := port.now }
    simp only [idleExpired, b1, b2, decide_eq_false_iff_not] at this
    omega
  · rw [h1] at h2
    simp only [idleExpired, a1, a2, decide_eq_true_eq] at h2
    exact h2

end Komutlar
